import Mathlib

/-!
Verification development for the `contextctl` core: document model and
frontmatter parser (`content.py`), metadata validator (`models.py`), facet
filter engine and search ranker (`content.py`, `_internal/filters.py`), and
the store synchronizer (`store.py`).

The Python code is embedded shallowly:

* Python `str` is Lean `String`; per-character work is done on `String.data`
  (`List Char`).
* `str.casefold` is modelled as per-character `Char.toLower` (they agree on
  ASCII, which is all the repository's identifiers and queries use).
* `str.strip` / `str.split()` (whitespace variants) are modelled by explicit
  recursive functions over `List Char`.
* Python `float` scores are modelled as `ℚ` (exact arithmetic on the same
  expressions).
* Python's stable `list.sort(key=...)` is modelled by `List.insertionSort`
  with the key order; any two stable sorts of the same list under the same
  total preorder agree elementwise.
* Fallible code returns `Except String`, carrying the Python exception
  message.
-/

namespace Contextctl

/-- Models Python's whitespace test used by `str.strip` and `str.split`. -/
def wsChar (c : Char) : Bool :=
  c.isWhitespace

/-- Models `str.casefold` on a single character (ASCII-faithful). -/
def casefoldChar (c : Char) : Char :=
  c.toLower

/-- Models `str.casefold`. -/
def casefold (s : String) : String :=
  ⟨s.data.map casefoldChar⟩

/-- Removes a maximal run of trailing whitespace characters
(the `rstrip()` half of Python `str.strip()`). -/
def dropTrailWs : List Char → List Char
  | [] => []
  | c :: cs =>
    let r := dropTrailWs cs
    if r.isEmpty && wsChar c then [] else c :: r

/-- Models Python `str.strip()` on character lists: drop leading and trailing
whitespace. -/
def trimChars (l : List Char) : List Char :=
  dropTrailWs (l.dropWhile wsChar)

/-- Models Python `str.strip()`. -/
def pyStrip (s : String) : String :=
  ⟨trimChars s.data⟩

/-- One-pass worker for Python `str.split()`: `cur` carries the reversed
characters of the field being read. -/
def splitWsGo (cur : List Char) : List Char → List (List Char)
  | [] => if cur.isEmpty then [] else [cur.reverse]
  | c :: cs =>
    if wsChar c then
      if cur.isEmpty then splitWsGo [] cs else cur.reverse :: splitWsGo [] cs
    else splitWsGo (c :: cur) cs

/-- Models Python `str.split()` (no argument: split on whitespace runs,
dropping empty fields) on character lists. -/
def splitWsChars (l : List Char) : List (List Char) :=
  splitWsGo [] l

/-- Models Python `str.split()`. -/
def pySplit (s : String) : List String :=
  (splitWsChars s.data).map fun l => ⟨l⟩

/-- Decides whether `needle` is a prefix of `hay` (character lists). -/
def isPrefixCh : List Char → List Char → Bool
  | [], _ => true
  | _ :: _, [] => false
  | a :: as, b :: bs => a = b && isPrefixCh as bs

/-- Decides whether `needle` occurs contiguously inside `hay`: models the
Python expression `needle in hay` on strings. -/
def isInfixCh (needle : List Char) : List Char → Bool
  | [] => isPrefixCh needle []
  | h :: t => isPrefixCh needle (h :: t) || isInfixCh needle t

/-- Models Python `needle in hay` for strings. -/
def strContains (hay needle : String) : Bool :=
  isInfixCh needle.data hay.data

/-- Python string comparison `s < t`: code-point lexicographic order on the
character sequences. -/
def charListLt : List Char → List Char → Bool
  | [], [] => false
  | [], _ :: _ => true
  | _ :: _, [] => false
  | a :: as, b :: bs =>
    if a < b then true
    else if b < a then false
    else charListLt as bs

/-- Python `s <= t` on strings (`¬ t < s` for a total order). -/
def pyStrLe (s t : String) : Prop :=
  charListLt t.data s.data = false

instance : DecidableRel pyStrLe := fun s t =>
  inferInstanceAs (Decidable (charListLt t.data s.data = false))

theorem charListLt_irrefl : ∀ l : List Char, charListLt l l = false
  | [] => rfl
  | a :: as => by
    simp only [charListLt, lt_irrefl a, if_false]
    exact charListLt_irrefl as

theorem charListLt_trans :
    ∀ {a b c : List Char}, charListLt a b = true → charListLt b c = true →
      charListLt a c = true
  | [], _ :: _, _ :: _, _, _ => rfl
  | a :: as, b :: bs, c :: cs, hab, hbc => by
    simp only [charListLt] at hab hbc ⊢
    rcases lt_trichotomy a b with h1 | h1 | h1
    · rcases lt_trichotomy b c with h2 | h2 | h2
      · simp [lt_trans h1 h2]
      · subst h2
        simp [h1]
      · rw [if_neg (lt_asymm h2), if_pos h2] at hbc
        exact absurd hbc (by simp)
    · subst h1
      rcases lt_trichotomy a c with h2 | h2 | h2
      · simp [h2]
      · subst h2
        rw [if_neg (lt_irrefl a)] at hab hbc ⊢
        rw [if_neg (lt_irrefl a)] at hab hbc ⊢
        exact charListLt_trans hab hbc
      · rw [if_neg (lt_asymm h2), if_pos h2] at hbc
        exact absurd hbc (by simp)
    · rw [if_neg (lt_asymm h1), if_pos h1] at hab
      exact absurd hab (by simp)

theorem charListLt_connex :
    ∀ {a b : List Char}, charListLt a b = false → charListLt b a = false → a = b
  | [], [], _, _ => rfl
  | [], _ :: _, hab, _ => by simp [charListLt] at hab
  | _ :: _, [], _, hba => by simp [charListLt] at hba
  | a :: as, b :: bs, hab, hba => by
    simp only [charListLt] at hab hba
    rcases lt_trichotomy a b with h1 | h1 | h1
    · rw [if_pos h1] at hab
      exact absurd hab (by simp)
    · subst h1
      rw [if_neg (lt_irrefl a), if_neg (lt_irrefl a)] at hab hba
      rw [charListLt_connex hab hba]
    · rw [if_pos h1] at hba
      exact absurd hba (by simp)

theorem charListLt_asymm {a b : List Char} (h : charListLt a b = true) :
    charListLt b a = false := by
  cases hba : charListLt b a
  · rfl
  · have h2 := charListLt_trans h hba
    rw [charListLt_irrefl] at h2
    exact h2.symm

theorem pyStrLe_total (s t : String) : pyStrLe s t ∨ pyStrLe t s := by
  unfold pyStrLe
  cases h : charListLt t.data s.data
  · exact .inl rfl
  · exact .inr (charListLt_asymm h)

theorem pyStrLe_trans {s t u : String} (h1 : pyStrLe s t) (h2 : pyStrLe t u) :
    pyStrLe s u := by
  unfold pyStrLe at h1 h2 ⊢
  cases h3 : charListLt u.data s.data
  · rfl
  · cases h4 : charListLt s.data t.data
    · have ce : s.data = t.data := charListLt_connex h4 h1
      rw [ce] at h3
      rw [h3] at h2
      exact h2
    · have h5 := charListLt_trans h3 h4
      rw [h5] at h2
      exact h2

/-! ## Metadata model (`models.py`) -/

/-- Models `models._normalize_list`'s loop, threading the `seen` set of
casefolded fingerprints (the Python `set` is modelled as the list of its
elements; only membership is used). -/
def normalizeListGo (seen : List String) : List String → List String
  | [] => []
  | v :: vs =>
    let trimmed := pyStrip v
    if trimmed = "" then normalizeListGo seen vs
    else
      let fingerprint := casefold trimmed
      if fingerprint ∈ seen then normalizeListGo seen vs
      else trimmed :: normalizeListGo (fingerprint :: seen) vs

/-- Models `models._normalize_list`: trim entries, drop blanks, deduplicate
case-insensitively keeping the first occurrence. -/
def normalize_list (values : List String) : List String :=
  normalizeListGo [] values

/-- Decides whether a character is an ASCII decimal digit (regex `\d`). -/
def isDigitCh (c : Char) : Bool :=
  '0' ≤ c && c ≤ '9'

/-- Decides whether a character is an ASCII nonzero digit (regex `[1-9]`). -/
def isPosDigitCh (c : Char) : Bool :=
  '1' ≤ c && c ≤ '9'

/-- Full match of one numeric component of `models._SEMVER_PATTERN`,
`(?:0|[1-9]\d*)`. -/
def numeralMatch : List Char → Bool
  | [] => false
  | c :: cs => (c = '0' && cs.isEmpty) || (isPosDigitCh c && cs.all isDigitCh)

/-- Splits a character list on a separator, keeping empty fields (models
what the two literal dots in `_SEMVER_PATTERN` induce). -/
def splitOnCh (sep : Char) : List Char → List (List Char)
  | [] => [[]]
  | c :: cs =>
    if c = sep then [] :: splitOnCh sep cs
    else
      match splitOnCh sep cs with
      | [] => [[c]]
      | f :: rest => (c :: f) :: rest

/-- Full match of `models._SEMVER_PATTERN`:
`(?:0|[1-9]\d*)\.(?:0|[1-9]\d*)\.(?:0|[1-9]\d*)`. -/
def semverMatch (s : String) : Bool :=
  match splitOnCh '.' s.data with
  | [a, b, c] => numeralMatch a && numeralMatch b && numeralMatch c
  | _ => false

/-- Full match of `models._ID_PATTERN`, `[a-z0-9][a-z0-9\-_]*`. -/
def idMatch (s : String) : Bool :=
  match s.data with
  | [] => false
  | c :: cs =>
    (('a' ≤ c && c ≤ 'z') || isDigitCh c) &&
      cs.all fun x => ('a' ≤ x && x ≤ 'z') || isDigitCh x || x = '-' || x = '_'

/-- Models `_BaseMetadata.validate_version`. -/
def validate_version (value : String) : Except String String :=
  let normalized := pyStrip value
  if normalized = "" then .error "Version cannot be blank"
  else if !semverMatch normalized then .error "Version must follow MAJOR.MINOR.PATCH format"
  else .ok normalized

/-- Models `PromptMetadata.validate_prompt_id` (and the identical
`RuleMetadata.validate_rule_id`). -/
def validate_prompt_id (value : String) : Except String String :=
  let normalized := pyStrip value
  if normalized = "" then .error "Prompt id cannot be blank"
  else if !idMatch normalized then
    .error "Prompt id must contain lowercase letters, numbers, dashes, or underscores"
  else .ok normalized

/-! ## Document model (`content.py`) -/

/-- Models `models.PromptMetadata` (validated field values). -/
structure PromptMetadata where
  prompt_id : String
  title : Option String
  tags : List String
  repos : List String
  agents : List String
  version : String
deriving DecidableEq, Repr

/-- Models `content.PromptDocument` (paths are kept as plain strings). -/
structure PromptDocument where
  metadata : PromptMetadata
  body : String
  path : String
deriving DecidableEq, Repr

/-- Models `content._metadata_value_set`: the set of trimmed, casefolded,
non-blank entries (a Python `set`, modelled as the deduplicated list of its
elements; only emptiness, membership, intersection and subset tests are
performed on it). -/
def metadata_value_set (values : List String) : List String :=
  ((values.map fun v => casefold (pyStrip v)).filter fun v => v ≠ "").dedup

/-- Models `content._normalize_query_values` (a `None` query is the empty
list; a single-string query is a one-element list). -/
def normalize_query_values (values : Option (List String)) : List String :=
  match values with
  | none => []
  | some candidates =>
    (((candidates.map pyStrip).filter fun v => v ≠ "").map casefold).dedup

/-- Models `content.filter_by_repo`. -/
def filter_by_repo (documents : List PromptDocument) (repo_slug : Option String) :
    List PromptDocument :=
  match repo_slug with
  | none => documents
  | some slug =>
    let normalized := casefold (pyStrip slug)
    if normalized = "" then documents
    else
      documents.filter fun document =>
        let repos := metadata_value_set document.metadata.repos
        repos.isEmpty || normalized ∈ repos

/-- Models `content.filter_by_tags`. -/
def filter_by_tags (documents : List PromptDocument) (tags : Option (List String))
    (match_all : Bool) : List PromptDocument :=
  let query_tags := normalize_query_values tags
  if query_tags.isEmpty then documents
  else
    documents.filter fun document =>
      let document_tags := metadata_value_set document.metadata.tags
      if document_tags.isEmpty then false
      else if match_all then query_tags.all fun t => t ∈ document_tags
      else document_tags.any fun t => t ∈ query_tags

/-- Models `content.filter_by_agent`. -/
def filter_by_agent (documents : List PromptDocument) (agents : Option (List String)) :
    List PromptDocument :=
  let query_agents := normalize_query_values agents
  if query_agents.isEmpty then documents
  else
    documents.filter fun document =>
      let document_agents := metadata_value_set document.metadata.agents
      document_agents.isEmpty || document_agents.any fun a => a ∈ query_agents

/-! ## String similarity (model of `difflib.SequenceMatcher.ratio`)

`content._fuzzy_match_score` calls `difflib.SequenceMatcher(a=..., b=...).ratio()`.
The model below reproduces CPython's algorithm for the no-junk case: `ratio`
is `2 * M / T` where `M` is the total size of the matching blocks found by
recursively taking the longest common contiguous block (ties broken towards
the leftmost position in `a`, then in `b`) and `T` is the sum of the two
lengths (with `ratio = 1` when both are empty).  CPython's `autojunk`
heuristic, which only engages when `b` has 200 or more characters, is not
modelled. -/

/-- Length of the longest common prefix of two character lists. -/
def commonRun : List Char → List Char → Nat
  | a :: as, b :: bs => if a = b then commonRun as bs + 1 else 0
  | _, _ => 0

/-- Models `SequenceMatcher.find_longest_match` over the whole of `a` and
`b`: returns `(i, j, k)` where `k` is the length of the longest common
contiguous block, `a.drop i` and `b.drop j` both start with it, and `(i, j)`
is lexicographically least among maximal blocks (CPython registers a block
the first time its full size is seen, scanning end positions in ascending
`(i, j)` order, which selects the same block). -/
def findLongestMatch (a b : List Char) : Nat × Nat × Nat :=
  (List.range a.length).foldl
    (fun best i =>
      (List.range b.length).foldl
        (fun best j =>
          let k := commonRun (a.drop i) (b.drop j)
          if best.2.2 < k then (i, j, k) else best)
        best)
    (0, 0, 0)

theorem commonRun_le_left : ∀ a b : List Char, commonRun a b ≤ a.length
  | [], _ => Nat.le_refl _
  | _ :: _, [] => by simp [commonRun]
  | a :: as, b :: bs => by
    simp only [commonRun, List.length_cons]
    split
    · exact Nat.succ_le_succ (commonRun_le_left as bs)
    · exact Nat.zero_le _

theorem commonRun_le_right : ∀ a b : List Char, commonRun a b ≤ b.length
  | [], _ => Nat.zero_le _
  | _ :: _, [] => by simp [commonRun]
  | a :: as, b :: bs => by
    simp only [commonRun, List.length_cons]
    split
    · exact Nat.succ_le_succ (commonRun_le_right as bs)
    · exact Nat.zero_le _

/-- The block reported by `findLongestMatch` lies inside both lists. -/
theorem findLongestMatch_bounds (a b : List Char) :
    (findLongestMatch a b).1 + (findLongestMatch a b).2.2 ≤ a.length ∧
      (findLongestMatch a b).2.1 + (findLongestMatch a b).2.2 ≤ b.length := by
  unfold findLongestMatch
  refine List.foldlRecOn
    (motive := fun best : Nat × Nat × Nat =>
      best.1 + best.2.2 ≤ a.length ∧ best.2.1 + best.2.2 ≤ b.length) _ _ _ ?_ ?_
  · exact ⟨Nat.zero_le _, Nat.zero_le _⟩
  · intro best hbest i hi
    refine List.foldlRecOn
      (motive := fun best : Nat × Nat × Nat =>
        best.1 + best.2.2 ≤ a.length ∧ best.2.1 + best.2.2 ≤ b.length) _ _ _ ?_ ?_
    · exact hbest
    · intro best' hbest' j hj
      dsimp only
      split
      · refine ⟨?_, ?_⟩
        · show i + commonRun (a.drop i) (b.drop j) ≤ a.length
          have := commonRun_le_left (a.drop i) (b.drop j)
          rw [List.length_drop] at this
          have hi' := List.mem_range.mp hi
          omega
        · show j + commonRun (a.drop i) (b.drop j) ≤ b.length
          have := commonRun_le_right (a.drop i) (b.drop j)
          rw [List.length_drop] at this
          have hj' := List.mem_range.mp hj
          omega
      · exact hbest'

/-- Fueled worker for the matching-block recursion: each recursive call
strictly shrinks `a.length + b.length` (by `findLongestMatch_bounds`), so
`fuel = a.length + b.length` is always enough; with zero fuel both lists
are empty and the true total is `0` anyway (`matchingTotal_recurrence`
below proves the fuel-free recurrence). -/
def matchingTotalFuel : Nat → List Char → List Char → Nat
  | 0, _, _ => 0
  | fuel + 1, a, b =>
    if (findLongestMatch a b).2.2 = 0 then 0
    else
      (findLongestMatch a b).2.2 +
        matchingTotalFuel fuel (a.take (findLongestMatch a b).1)
          (b.take (findLongestMatch a b).2.1) +
        matchingTotalFuel fuel (a.drop ((findLongestMatch a b).1 + (findLongestMatch a b).2.2))
          (b.drop ((findLongestMatch a b).2.1 + (findLongestMatch a b).2.2))

/-- Models the total matched size summed over
`SequenceMatcher.get_matching_blocks` (the recursion of
`find_longest_match` over the regions left and right of each block; the
final merge step never changes the total). -/
def matchingTotal (a b : List Char) : Nat :=
  matchingTotalFuel (a.length + b.length) a b

/-- Models `difflib.SequenceMatcher(a=a, b=b).ratio()` (no-junk case). -/
def ratio (a b : String) : ℚ :=
  let total := a.length + b.length
  if total = 0 then 1
  else 2 * (matchingTotal a.data b.data : ℚ) / (total : ℚ)

/-! ## Search ranker (`content.py`) -/

/-- Models `content._tokenize_query`:
`[token.casefold() for token in query.split() if token.strip()]`. -/
def tokenize_query (query : String) : List String :=
  ((pySplit query).filter fun token => pyStrip token ≠ "").map casefold

/-- Models `content._build_prompt_haystack`. -/
def build_prompt_haystack (document : PromptDocument) : String :=
  casefold (String.intercalate " "
    [document.metadata.prompt_id,
     document.metadata.title.getD "",
     String.intercalate " " document.metadata.tags,
     String.intercalate " " document.metadata.repos,
     String.intercalate " " document.metadata.agents,
     document.body])

/-- Models `content._token_match_score`. -/
def token_match_score (tokens : List String) (haystack : String) : ℚ :=
  if tokens.isEmpty then 0
  else if tokens.all fun token => strContains haystack token then
    2 + (tokens.length : ℚ) / 10
  else if tokens.any fun token => strContains haystack token then 1
  else 0

/-- Maximum of a nonempty rational list (Python `max(scores)`); `0` on the
empty list, matching the `if not scores` guard at the call site. -/
def listMax : List ℚ → ℚ
  | [] => 0
  | x :: xs => xs.foldl max x

/-- Models `content._fuzzy_match_score`. -/
def fuzzy_match_score (candidates : List String) (prompt_id : String) : ℚ :=
  let identifier := casefold prompt_id
  let scores := (candidates.filter fun c => c ≠ "").map fun c => ratio c identifier
  listMax scores

/-- The candidate list `search_prompts` feeds to `fuzzy_match_score`: the
Python code builds `set(tokens) | {normalized_query.casefold()}`; since the
set is only used through `max` over ratios, it is modelled as the
concatenated list (duplicates cannot change a maximum). -/
def fuzzyCandidates (query : String) : List String :=
  let tokens := tokenize_query query
  let normalized := pyStrip query
  tokens ++ (if normalized ≠ "" then [casefold normalized] else [])

/-- Token score of a document for a query, as computed inside
`content.search_prompts`'s loop. -/
def tokenScoreOf (query : String) (document : PromptDocument) : ℚ :=
  token_match_score (tokenize_query query) (build_prompt_haystack document)

/-- Fuzzy score of a document for a query, as computed inside
`content.search_prompts`'s loop. -/
def fuzzyScoreOf (query : String) (document : PromptDocument) : ℚ :=
  fuzzy_match_score (fuzzyCandidates query) document.metadata.prompt_id

/-- Combined score (`max(token_score, fuzzy_score)`). -/
def scoreOf (query : String) (document : PromptDocument) : ℚ :=
  max (tokenScoreOf query document) (fuzzyScoreOf query document)

/-- The key order used by `results.sort(key=lambda item: (-item[0], item[1].metadata.prompt_id))`:
ascending in `-score`, then ascending in prompt id. -/
def scoreKeyLe (x y : ℚ × PromptDocument) : Prop :=
  y.1 < x.1 ∨ (x.1 = y.1 ∧ pyStrLe x.2.metadata.prompt_id y.2.metadata.prompt_id)

instance : DecidableRel scoreKeyLe := fun x y =>
  inferInstanceAs
    (Decidable (y.1 < x.1 ∨ (x.1 = y.1 ∧ pyStrLe x.2.metadata.prompt_id y.2.metadata.prompt_id)))

instance : IsTotal (ℚ × PromptDocument) scoreKeyLe where
  total x y := by
    rcases lt_trichotomy x.1 y.1 with h | h | h
    · exact .inr (.inl h)
    · rcases pyStrLe_total x.2.metadata.prompt_id y.2.metadata.prompt_id with h' | h'
      · exact .inl (.inr ⟨h, h'⟩)
      · exact .inr (.inr ⟨h.symm, h'⟩)
    · exact .inl (.inl h)

instance : IsTrans (ℚ × PromptDocument) scoreKeyLe where
  trans x y z hxy hyz := by
    rcases hxy with h | ⟨he, hs⟩
    · rcases hyz with h' | ⟨he', _⟩
      · exact .inl (lt_trans h' h)
      · exact .inl (he' ▸ h)
    · rcases hyz with h' | ⟨he', hs'⟩
      · exact .inl (he ▸ h')
      · exact .inr ⟨he.trans he', pyStrLe_trans hs hs'⟩

/-- Models `content.search_prompts` (default `fuzzy_threshold = 0.72`).
The Python `list.sort` is stable; `List.insertionSort` with the same total
key preorder computes the same list. -/
def search_prompts (documents : List PromptDocument) (query : String)
    (fuzzy_threshold : ℚ := 72 / 100) : Except String (List PromptDocument) :=
  let tokens := tokenize_query query
  if tokens.isEmpty then .error "Search query cannot be empty"
  else
    let fuzzy_candidates := fuzzyCandidates query
    let results := documents.filterMap fun document =>
      let haystack := build_prompt_haystack document
      let token_score := token_match_score tokens haystack
      let fuzzy_score := fuzzy_match_score fuzzy_candidates document.metadata.prompt_id
      if token_score = 0 ∧ fuzzy_score < fuzzy_threshold then none
      else some (max token_score fuzzy_score, document)
    .ok ((results.insertionSort scoreKeyLe).map Prod.snd)

/-! ## Search dispatch (`_internal/filters.py`) -/

/-- Models `filters.prompt_search_haystack` (same text as
`content._build_prompt_haystack`). -/
def prompt_search_haystack (document : PromptDocument) : String :=
  casefold (String.intercalate " "
    [document.metadata.prompt_id,
     document.metadata.title.getD "",
     String.intercalate " " document.metadata.tags,
     String.intercalate " " document.metadata.repos,
     String.intercalate " " document.metadata.agents,
     document.body])

/-- Models `filters.execute_search`. -/
def execute_search (documents : List PromptDocument) (query : String) (exact : Bool) :
    Except String (List PromptDocument) :=
  if exact then
    let normalized_query := casefold query
    .ok (documents.filter fun document =>
      strContains (prompt_search_haystack document) normalized_query)
  else search_prompts documents query

/-! ## Frontmatter parser (`content.parse_frontmatter`)

The regex `_FRONTMATTER_BOUNDARY = re.compile(r"^---\s*$", re.MULTILINE)` is
modelled character by character: `.match` anchors at position 0; `.search`
scans line starts; `\s*` greedily eats whitespace (newlines included) and
backtracks so that `$` lands at the end of the text or just before a
newline.  YAML deserialization (`yaml.safe_load`) is an external library,
so `parse_frontmatter` takes it as a parameter; `miniYamlLoad` below is a
concrete instance for the inputs used in counterexamples. -/

/-- Index of the last newline in a character list, if any. -/
def lastNlIdx : List Char → Option Nat
  | [] => none
  | c :: cs =>
    match lastNlIdx cs with
    | some i => some (i + 1)
    | none => if c = '\n' then some 0 else none

/-- Result of `re.match(r"^---\s*$", ..., re.MULTILINE)` at position 0 of
`l`: `some e` is the match's `end()` (`$` matches at the end of the text or
just before a newline; the greedy `\s*` makes `e` maximal). -/
def matchBoundaryAt (l : List Char) : Option Nat :=
  if l.take 3 = ['-', '-', '-'] then
    let run := (l.drop 3).takeWhile wsChar
    if 3 + run.length = l.length then some l.length
    else
      match lastNlIdx run with
      | some i => some (3 + i)
      | none => none
  else none

/-- Whether position `p` is a line start (`^` in `re.MULTILINE`). -/
def lineStartAt (l : List Char) (p : Nat) : Bool :=
  p = 0 || l[p - 1]? = some '\n'

/-- The text after `raw_text.lstrip("\uFEFF")`. -/
def bomStripped (raw_text : String) : List Char :=
  raw_text.data.dropWhile fun c => c = '\uFEFF'

/-- Worker for the boundary search: `fuel` counts the candidate positions
`p, p+1, …` still to try (past the end of `l` no position can match, so
running out of fuel at `l.length + 1 - p` positions is exact, not a cap). -/
def findBoundaryGo (l : List Char) : Nat → Nat → Option (Nat × Nat)
  | _, 0 => none
  | p, fuel + 1 =>
    if lineStartAt l p then
      match matchBoundaryAt (l.drop p) with
      | some e => some (p, p + e)
      | none => findBoundaryGo l (p + 1) fuel
    else findBoundaryGo l (p + 1) fuel

/-- Models `_FRONTMATTER_BOUNDARY.search(text, pos)`: the leftmost line
start `≥ pos` where the boundary pattern matches, as `(start, end)`. -/
def findBoundaryFrom (l : List Char) (p : Nat) : Option (Nat × Nat) :=
  findBoundaryGo l p (l.length + 1 - p)

/-- Values `yaml.safe_load` can return, as far as the parser's behaviour
depends on them (mapping keys are strings in every frontmatter block). -/
inductive Yaml where
  | nullV
  | boolV (b : Bool)
  | intV (n : Int)
  | strV (s : String)
  | listV (items : List Yaml)
  | mapV (entries : List (String × Yaml))

/-- Python falsiness of a deserialized YAML value (what `or {}` tests). -/
def isFalsy : Yaml → Bool
  | .nullV => true
  | .boolV b => !b
  | .intV n => n = 0
  | .strV s => s = ""
  | .listV items => items.isEmpty
  | .mapV entries => entries.isEmpty

/-- Characters stripped from the body by `lstrip("\r\n")` / `rstrip("\r\n")`. -/
def isNlChar (c : Char) : Bool :=
  c = '\n' || c = '\r'

/-- Models `content.parse_frontmatter`, parameterized by the external YAML
deserializer (`.error` on the deserializer means `yaml.YAMLError`). -/
def parse_frontmatter (safeLoad : String → Except Unit Yaml) (raw_text : String) :
    Except String (List (String × Yaml) × String) :=
  let text := bomStripped raw_text
  match matchBoundaryAt text with
  | none => .error "Document must begin with YAML frontmatter delimited by ---"
  | some openEnd =>
    match findBoundaryFrom text openEnd with
    | none => .error "Frontmatter block is not properly terminated"
    | some (closeStart, closeEnd) =>
      let yaml_block : String := ⟨(text.drop openEnd).take (closeStart - openEnd)⟩
      match safeLoad yaml_block with
      | .error _ => .error "Unable to parse YAML frontmatter"
      | .ok loaded =>
        let metadata := if isFalsy loaded then Yaml.mapV [] else loaded
        match metadata with
        | .mapV entries =>
          let body := (text.drop closeEnd).dropWhile isNlChar
          let body := (body.reverse.dropWhile isNlChar).reverse
          .ok (entries, ⟨body⟩)
        | _ => .error "YAML frontmatter must deserialize to a mapping"

/-- The delimited text `parse_frontmatter` hands to the deserializer, when
both boundaries are found. -/
def frontmatter_block (l : List Char) : Option (List Char) :=
  match matchBoundaryAt l with
  | none => none
  | some openEnd =>
    match findBoundaryFrom l openEnd with
    | none => none
    | some (closeStart, _) => some ((l.drop openEnd).take (closeStart - openEnd))

/-- Splits a character list at the first occurrence of `sep`. -/
def splitAtFirst (sep : Char) : List Char → Option (List Char × List Char)
  | [] => none
  | c :: cs =>
    if c = sep then some ([], cs)
    else
      match splitAtFirst sep cs with
      | none => none
      | some (a, b) => some (c :: a, b)

/-- Numeric value of an all-digit character list. -/
def digitsToNat (l : List Char) : Nat :=
  l.foldl (fun n c => n * 10 + (c.toNat - '0'.toNat)) 0

/-- Scalar resolution of a trimmed YAML fragment. -/
def yamlScalar (l : List Char) : Yaml :=
  let t := trimChars l
  if t = [] then .nullV
  else if t = "null".data then .nullV
  else if t = "true".data then .boolV true
  else if t = "false".data then .boolV false
  else if t.all isDigitCh then .intV (digitsToNat t)
  else .strV ⟨t⟩

/-- Modelled from the spec: the delimiter-enclosed "text between the two
delimiters must deserialize to a mapping (non-mapping or malformed content
is an error)" refers to PyYAML's `yaml.safe_load`, which is external to the
repository.  This mini-deserializer reproduces `safe_load` on the small
concrete documents used below: blank input is `None`; `- `-led lines form a
list; `key: value` lines form a mapping; a single remaining line is a
scalar. -/
def miniYamlLoad (s : String) : Except Unit Yaml :=
  let lines := ((splitOnCh '\n' s.data).map trimChars).filter fun l => l ≠ []
  if lines.isEmpty then .ok .nullV
  else if lines.all fun l => l.take 2 = ['-', ' '] then
    .ok (.listV (lines.map fun l => yamlScalar (l.drop 2)))
  else if lines.all fun l => (splitAtFirst ':' l).isSome then
    .ok (.mapV (lines.map fun l =>
      match splitAtFirst ':' l with
      | some (k, v) => (⟨trimChars k⟩, yamlScalar v)
      | none => ("", .nullV)))
  else
    match lines with
    | [l] => .ok (yamlScalar l)
    | _ => .error ()

/-! ## Directory scanner (`content._scan_directory`, `content.scan_prompts_dir`)

The filesystem is modelled as the state of the scanned directory: absent,
present but not a directory, or a directory with its recursive entry
listing (`directory.rglob("*")`).  Loading one file
(`content.load_prompt`, i.e. read + `parse_frontmatter` + `PromptMetadata`
validation) is passed as a function from the file's path, mirroring the
`loader` parameter `_scan_directory` itself takes. -/

/-- One entry of the recursive directory listing. -/
structure FileEntry where
  path : String
  isFile : Bool
deriving DecidableEq, Repr

/-- State of the scanned directory. -/
inductive DirState where
  | missing
  | notDir
  | dir (entries : List FileEntry)
deriving DecidableEq, Repr

/-- Models `pathlib.PurePath.suffix`: the final component's extension from
its last dot, empty when the dot is absent or leads the name. -/
def pathSuffix (p : String) : String :=
  let name := (p.data.reverse.takeWhile fun c => c ≠ '/').reverse
  match name with
  | [] => ""
  | _ :: rest =>
    if rest.contains '.' then ⟨'.' :: (rest.reverse.takeWhile fun x => x ≠ '.').reverse⟩
    else ""

/-- `content._PROMPT_SUFFIXES` (also `_RULE_SUFFIXES`), already lowercase. -/
def allowedSuffixes : List String :=
  [".md", ".markdown"]

/-- Path order used by `sorted(directory.rglob("*"))` (modelled on the path
strings; `pathlib` compares by components, which only differs when one
component is a proper prefix of another containing a separator-adjacent
code point — no claim depends on which of two failing files wins). -/
def pathLe (x y : FileEntry) : Prop :=
  pyStrLe x.path y.path

instance : DecidableRel pathLe := fun x y =>
  inferInstanceAs (Decidable (pyStrLe x.path y.path))

/-- Models `content._list_files`: the sorted recursive listing, kept when
the entry is a file with an allowed (lowercased) extension. -/
def list_files (entries : List FileEntry) : List String :=
  ((entries.insertionSort pathLe).filter fun candidate =>
    candidate.isFile && casefold (pathSuffix candidate.path) ∈ allowedSuffixes).map
    FileEntry.path

/-- Models the comprehension `[loader(path) for path in files]`: the first
raised error aborts the whole list. -/
def loadAll (loader : String → Except String PromptDocument) :
    List String → Except String (List PromptDocument)
  | [] => .ok []
  | f :: fs =>
    match loader f with
    | .error e => .error e
    | .ok d =>
      match loadAll loader fs with
      | .error e => .error e
      | .ok ds => .ok (d :: ds)

/-- Models `content._scan_directory` for the `prompts/` tree (the error
strings stand for the interpolated `ContentError` messages). -/
def scan_directory (st : DirState) (loader : String → Except String PromptDocument) :
    Except String (List PromptDocument) :=
  match st with
  | .missing => .error "Missing prompts directory under store path"
  | .notDir => .error "prompts path must be a directory"
  | .dir entries => loadAll loader (list_files entries)

/-- Logical-id order used by `sorted(documents, key=lambda doc: doc.metadata.prompt_id)`. -/
def idLe (x y : PromptDocument) : Prop :=
  pyStrLe x.metadata.prompt_id y.metadata.prompt_id

instance : DecidableRel idLe := fun x y =>
  inferInstanceAs (Decidable (pyStrLe x.metadata.prompt_id y.metadata.prompt_id))

instance : IsTotal PromptDocument idLe where
  total x y := pyStrLe_total x.metadata.prompt_id y.metadata.prompt_id

instance : IsTrans PromptDocument idLe where
  trans _ _ _ hxy hyz := pyStrLe_trans hxy hyz

/-- Models `content.scan_prompts_dir`. -/
def scan_prompts_dir (st : DirState) (loader : String → Except String PromptDocument) :
    Except String (List PromptDocument) :=
  (scan_directory st loader).map fun documents => documents.insertionSort idLe

/-! ## Store synchronizer (`store.py`) -/

/-- Models `store._looks_like_remote` (`str.startswith` is a data prefix
test, written with `isPrefixCh`). -/
def looks_like_remote (value : String) : Bool :=
  isInfixCh "://".data value.data || isPrefixCh "git@".data value.data ||
    isPrefixCh "ssh://".data value.data

/-- Models `store._is_local_reference`.  `pathExists` stands for
`Path(...).exists()` and `expanduser` for `Path(...).expanduser()`; POSIX
`Path.is_absolute()` is a leading `/` on the expanded candidate. -/
def is_local_reference (pathExists : String → Bool) (expanduser : String → String)
    (value : String) : Bool :=
  let cleaned := pyStrip value
  if cleaned = "" then false
  else if looks_like_remote cleaned then false
  else
    let candidate := expanduser cleaned
    if pathExists candidate || isPrefixCh "/".data candidate.data then true
    else isPrefixCh ".".data cleaned.data || isPrefixCh "..".data cleaned.data

/-- Characters `re.sub(r"[^a-z0-9\-]+", "-", ...)` keeps unchanged. -/
def slugOk (c : Char) : Bool :=
  ('a' ≤ c && c ≤ 'z') || isDigitCh c || c = '-'

/-- Worker replacing each maximal run of non-slug characters by a single
dash; `skipping` records being inside such a run. -/
def collapseGo : Bool → List Char → List Char
  | _, [] => []
  | skipping, c :: cs =>
    if slugOk c then c :: collapseGo false cs
    else if skipping then collapseGo true cs
    else '-' :: collapseGo true cs

/-- Models `re.sub(r"[^a-z0-9\-]+", "-", ...)`. -/
def collapseBad (l : List Char) : List Char :=
  collapseGo false l

/-- Models `str.strip("-")`. -/
def stripDash (l : List Char) : List Char :=
  (((l.dropWhile fun c => c = '-').reverse.dropWhile fun c => c = '-')).reverse

/-- Portion of the reference after the last `/` and then after the last `:`
(`value.rsplit("/", 1)[-1].rsplit(":", 1)[-1]`). -/
def refTail (value : String) : List Char :=
  let afterSlash := (value.data.reverse.takeWhile fun c => c ≠ '/').reverse
  (afterSlash.reverse.takeWhile fun c => c ≠ ':').reverse

/-- Models the cleaned tail computed inside `store._slugify_repo` (lowercase,
non-slug runs collapsed to dashes, outer dashes stripped, `"store"` when
empty). -/
def slugified_tail (value : String) : String :=
  let tail := refTail value
  let tail := if tail.reverse.take 4 = ".git".data.reverse then tail.take (tail.length - 4) else tail
  let cleaned := stripDash (collapseBad (tail.map Char.toLower))
  if cleaned = [] then "store" else ⟨cleaned⟩

/-- Models `store._slugify_repo`, parameterized by the external
`hashlib.sha256(...).hexdigest()`. -/
def slugify_repo (hexDigest : String → String) (value : String) : String :=
  slugified_tail value ++ "-" ++ ⟨(hexDigest value).data.take 12⟩

/-- State of the cache directory `store_path` as the synchronizer's git
calls observe and change it: whether the path exists, whether
`git.Repo(store_path)` is constructible, and whether the marker
`store_path/".git"` exists (what `store._has_valid_cache` checks). -/
structure StoreState where
  pathExists : Bool
  validRepo : Bool
  gitMarker : Bool
deriving DecidableEq, Repr

/-- Outcome of the external git operations for one sync pass: whether
`Repo.clone_from` would succeed, and whether the
fetch/reset/clean/pull sequence of `store._update_repo` would succeed. -/
structure GitBehavior where
  cloneOk : Bool
  updateOk : Bool
deriving DecidableEq, Repr

/-- Result of `store._prepare_repo` together with the cache state it leaves
behind. -/
inductive PrepResult where
  | okRepo (st : StoreState)
  | failed (st : StoreState)
deriving DecidableEq, Repr

/-- Modelled from the spec: `git.Repo.clone_from` is external.  A
successful shallow clone materializes a valid repository (marker included);
a failed clone leaves no repository behind — the spec's "given no cache and
a failing clone, sync raises SyncError" presumes exactly this git cleanup
behaviour. -/
def cloneStep (g : GitBehavior) : PrepResult :=
  if g.cloneOk then .okRepo ⟨true, true, true⟩ else .failed ⟨false, false, false⟩

/-- Models `store._prepare_repo`: reuse an existing valid repository,
otherwise delete whatever occupies the path (`clear_store_cache`) and
clone. -/
def prepare_repo (st : StoreState) (g : GitBehavior) : PrepResult :=
  if st.pathExists then
    if st.validRepo then .okRepo st
    else cloneStep g
  else cloneStep g

/-- Observable result of `store.sync_central_repo` on a remote reference:
the store path (with the cache state backing it) or a `StoreSyncError`. -/
inductive SyncOutcome where
  | storePath (st : StoreState)
  | syncError
deriving DecidableEq, Repr

/-- Models the remote branch of `store.sync_central_repo`: prepare (clone
if needed), update, and on any git failure fall back to the cache path when
`_has_valid_cache` holds, else raise (`_update_repo` mutates the worktree
but never removes `.git`, so a failing update leaves the state in place). -/
def sync_central_repo_remote (st : StoreState) (g : GitBehavior) : SyncOutcome :=
  match prepare_repo st g with
  | .failed stAfter => if stAfter.gitMarker then .storePath stAfter else .syncError
  | .okRepo stAfter =>
    if g.updateOk then .storePath stAfter
    else if stAfter.gitMarker then .storePath stAfter
    else .syncError

/-- Whether the guarded block of `sync_central_repo` raises internally
(clone or update failure). -/
def syncAttemptFails (st : StoreState) (g : GitBehavior) : Bool :=
  match prepare_repo st g with
  | .failed _ => true
  | .okRepo _ => !g.updateOk

/-- Cache state at the moment the failure handler inspects it. -/
def syncStateAfter (st : StoreState) (g : GitBehavior) : StoreState :=
  match prepare_repo st g with
  | .failed stAfter => stAfter
  | .okRepo stAfter => stAfter

/-- The claim-side reading of a boundary line: the text at position `p`
starts with `---` and the remainder of that line is whitespace. -/
def dashLineAt (l : List Char) (p : Nat) : Prop :=
  (l.drop p).take 3 = ['-', '-', '-'] ∧
    (((l.drop p).takeWhile fun c => c ≠ '\n').drop 3).all wsChar = true

instance (l : List Char) (p : Nat) : Decidable (dashLineAt l p) := by
  unfold dashLineAt
  infer_instance

/-- The classification as the claim (and spec §4.6) words it: local exactly
when the reference is an absolute path, an existing filesystem path, or
begins with `./` or `../`, and does not look like a remote URL.  Stated for
comparison with the implementation `is_local_reference`. -/
def claimIsLocalReference (pathExists : String → Bool) (expanduser : String → String)
    (value : String) : Bool :=
  let cleaned := pyStrip value
  let candidate := expanduser cleaned
  (!looks_like_remote cleaned) &&
    (pathExists candidate || isPrefixCh "/".data candidate.data ||
      isPrefixCh "./".data cleaned.data || isPrefixCh "../".data cleaned.data)

/-! ## Example documents and directory listings used in concrete witnesses -/

/-- Example prompt document from spec §8: `review-pr`, tags `[reviews, python]`. -/
def docReviewPr : PromptDocument :=
  ⟨⟨"review-pr", none, ["reviews", "python"], [], [], "0.1.0"⟩, "", "prompts/review-pr.md"⟩

/-- Example prompt document from spec §8: `incident-response`, tags `[incidents]`. -/
def docIncident : PromptDocument :=
  ⟨⟨"incident-response", none, ["incidents"], [], [], "0.1.0"⟩, "",
    "prompts/incident-response.md"⟩

/-- Example document with wildcard (empty) `repos` and `agents`. -/
def docAnyRepo : PromptDocument :=
  ⟨⟨"any-repo", none, [], [], [], "0.1.0"⟩, "", "prompts/any-repo.md"⟩

/-- Example document restricted to repo `Acme` and agent `Cursor`. -/
def docAcmeOnly : PromptDocument :=
  ⟨⟨"acme-only", none, [], ["Acme"], ["Cursor"], "0.1.0"⟩, "", "prompts/acme-only.md"⟩

/-- Document returned for `prompts/a.md` in the C5 witness: its id `zeta`
sorts after the other document's id. -/
def docZeta : PromptDocument :=
  ⟨⟨"zeta", none, [], [], [], "0.1.0"⟩, "", "prompts/a.md"⟩

/-- Document returned for `prompts/b.md` in the C5 witness. -/
def docAlpha : PromptDocument :=
  ⟨⟨"alpha", none, [], [], [], "0.1.0"⟩, "", "prompts/b.md"⟩

/-- Concrete directory listing for the C5 witness: two markdown files (in
reverse path order), one `.txt` file, one subdirectory. -/
def scanEntries : List FileEntry :=
  [⟨"prompts/b.md", true⟩, ⟨"prompts/a.md", true⟩, ⟨"prompts/readme.txt", true⟩,
    ⟨"prompts/sub", false⟩]

/-- Loader for the C5 witness. -/
def scanLoader : String → Except String PromptDocument := fun p =>
  if p = "prompts/a.md" then .ok docZeta
  else if p = "prompts/b.md" then .ok docAlpha
  else .error "boom"

/-! ## Basic string lemmas -/

theorem isInfixCh_nil (l : List Char) : isInfixCh [] l = true := by
  cases l <;> simp [isInfixCh, isPrefixCh]

theorem dropWhile_dropWhile (p : Char → Bool) :
    ∀ l : List Char, (l.dropWhile p).dropWhile p = l.dropWhile p
  | [] => rfl
  | c :: cs => by
    by_cases h : p c
    · simp only [List.dropWhile_cons, h, if_true]
      exact dropWhile_dropWhile p cs
    · simp [List.dropWhile_cons, h]

theorem dropTrailWs_idem : ∀ l : List Char, dropTrailWs (dropTrailWs l) = dropTrailWs l
  | [] => rfl
  | c :: cs => by
    simp only [dropTrailWs]
    split
    · rfl
    · rename_i h
      simp only [dropTrailWs, dropTrailWs_idem cs]
      rw [if_neg h]

theorem dropWhile_dropTrailWs (m : List Char) (hm : m.dropWhile wsChar = m) :
    (dropTrailWs m).dropWhile wsChar = dropTrailWs m := by
  cases m with
  | nil => rfl
  | cons c cs =>
    have hc : wsChar c = false := by
      by_contra h
      have hc' : wsChar c = true := by
        cases hw : wsChar c
        · exact absurd hw h
        · rfl
      rw [List.dropWhile_cons, hc', if_pos rfl] at hm
      have := (List.dropWhile_sublist (l := cs) wsChar).length_le
      rw [hm] at this
      simp at this
    simp only [dropTrailWs]
    split
    · rfl
    · simp [List.dropWhile_cons, hc]

theorem trimChars_idem (l : List Char) : trimChars (trimChars l) = trimChars l := by
  unfold trimChars
  rw [dropWhile_dropTrailWs _ (dropWhile_dropWhile wsChar l), dropTrailWs_idem]

theorem pyStrip_pyStrip (s : String) : pyStrip (pyStrip s) = pyStrip s :=
  String.ext (trimChars_idem s.data)

theorem dropWhile_eq_self_of_all {l : List Char} (h : l.all fun c => !wsChar c) :
    l.dropWhile wsChar = l := by
  cases l with
  | nil => rfl
  | cons c cs =>
    simp only [List.all_cons, Bool.and_eq_true, Bool.not_eq_true'] at h
    simp [List.dropWhile_cons, h.1]

theorem dropTrailWs_eq_self_of_all :
    ∀ {l : List Char}, (l.all fun c => !wsChar c) → dropTrailWs l = l
  | [], _ => rfl
  | c :: cs, h => by
    simp only [List.all_cons, Bool.and_eq_true, Bool.not_eq_true'] at h
    simp only [dropTrailWs, dropTrailWs_eq_self_of_all (by simpa using h.2), h.1,
      Bool.and_false, Bool.false_eq_true, if_false]

theorem trimChars_eq_self_of_all {l : List Char} (h : l.all fun c => !wsChar c) :
    trimChars l = l := by
  unfold trimChars
  rw [dropWhile_eq_self_of_all h, dropTrailWs_eq_self_of_all h]

theorem dropTrailWs_eq_nil_iff : ∀ l : List Char, dropTrailWs l = [] ↔ l.all wsChar
  | [] => by simp [dropTrailWs]
  | c :: cs => by
    simp only [dropTrailWs, List.all_cons]
    split
    · rename_i h
      simp only [Bool.and_eq_true, List.isEmpty_iff] at h
      simp [h.2, (dropTrailWs_eq_nil_iff cs).mp h.1]
    · rename_i h
      constructor
      · intro hc
        exact absurd hc (List.cons_ne_nil _ _)
      · intro hc
        simp only [Bool.and_eq_true] at hc
        exact absurd (by simp [hc.1, List.isEmpty_iff, (dropTrailWs_eq_nil_iff cs).mpr hc.2]) h

theorem dropWhile_all_iff (l : List Char) : (l.dropWhile wsChar).all wsChar = l.all wsChar := by
  induction l with
  | nil => rfl
  | cons c cs ih =>
    by_cases h : wsChar c
    · simp [List.dropWhile_cons, h, ih]
    · simp [List.dropWhile_cons, h]

theorem trimChars_eq_nil_iff (l : List Char) : trimChars l = [] ↔ l.all wsChar := by
  unfold trimChars
  rw [dropTrailWs_eq_nil_iff, dropWhile_all_iff]

theorem pyStrip_eq_empty_iff (s : String) : pyStrip s = "" ↔ s.data.all wsChar := by
  unfold pyStrip
  rw [show ("" : String) = ⟨[]⟩ from rfl, String.ext_iff]
  exact trimChars_eq_nil_iff s.data

theorem casefold_eq_empty_iff (s : String) : casefold s = "" ↔ s = "" := by
  unfold casefold
  rw [show ("" : String) = ⟨[]⟩ from rfl, String.ext_iff, String.ext_iff]
  simp

/-! ## Tokenizer lemmas -/

theorem splitWsGo_eq_nil_iff :
    ∀ (l cur : List Char), splitWsGo cur l = [] ↔ (cur = [] ∧ l.all wsChar)
  | [], cur => by
    simp only [splitWsGo, List.all_nil, and_true]
    split
    · rename_i h
      simp [List.isEmpty_iff.mp h]
    · rename_i h
      simp [List.isEmpty_iff] at h
      simp [h]
  | c :: cs, cur => by
    simp only [splitWsGo, List.all_cons]
    by_cases hc : wsChar c
    · rw [if_pos hc]
      by_cases hcur : cur.isEmpty
      · rw [if_pos hcur, splitWsGo_eq_nil_iff cs []]
        simp [List.isEmpty_iff.mp hcur, hc]
      · rw [if_neg hcur]
        simp only [List.isEmpty_iff] at hcur
        simp [hcur]
    · rw [if_neg hc]
      rw [splitWsGo_eq_nil_iff cs (c :: cur)]
      simp [hc]

theorem splitWsGo_mem :
    ∀ (l cur : List Char), (cur.all fun c => !wsChar c) →
      ∀ t ∈ splitWsGo cur l, t ≠ [] ∧ (t.all fun c => !wsChar c)
  | [], cur, hcur, t, ht => by
    simp only [splitWsGo] at ht
    split at ht
    · simp at ht
    · rename_i h
      simp only [List.mem_singleton] at ht
      subst ht
      simp only [List.isEmpty_iff] at h
      refine ⟨by simpa using h, ?_⟩
      rw [List.all_reverse]
      exact hcur
  | c :: cs, cur, hcur, t, ht => by
    simp only [splitWsGo] at ht
    by_cases hc : wsChar c
    · rw [if_pos hc] at ht
      split at ht
      · exact splitWsGo_mem cs [] rfl t ht
      · rename_i h
        rcases List.mem_cons.mp ht with h1 | h1
        · subst h1
          simp only [List.isEmpty_iff] at h
          refine ⟨by simpa using h, ?_⟩
          rw [List.all_reverse]
          exact hcur
        · exact splitWsGo_mem cs [] rfl t h1
    · rw [if_neg hc] at ht
      exact splitWsGo_mem cs (c :: cur) (by simp [hc, hcur]) t ht

theorem tokenize_query_eq_nil_iff (query : String) :
    tokenize_query query = [] ↔ pyStrip query = "" := by
  unfold tokenize_query pySplit splitWsChars
  rw [pyStrip_eq_empty_iff]
  constructor
  · intro h
    by_contra hq
    have hne : splitWsGo [] query.data ≠ [] := by
      rw [Ne, splitWsGo_eq_nil_iff]
      simp [hq]
    rcases List.exists_cons_of_ne_nil hne with ⟨t, ts, hts⟩
    have htok := splitWsGo_mem query.data [] rfl t (by rw [hts]; exact List.mem_cons_self t ts)
    have hstrip : pyStrip ⟨t⟩ = ⟨t⟩ := String.ext (trimChars_eq_self_of_all htok.2)
    have hne' : pyStrip ⟨t⟩ ≠ "" := by
      rw [hstrip, show ("" : String) = ⟨[]⟩ from rfl, Ne, String.ext_iff]
      exact htok.1
    simp only [hts, List.map_cons, List.filter_cons] at h
    rw [if_pos (by simpa using hne')] at h
    simp at h
  · intro h
    rw [show splitWsGo [] query.data = [] from (splitWsGo_eq_nil_iff _ _).mpr ⟨rfl, h⟩]
    rfl

/-! ## Claim C9: metadata normalization is idempotent -/

theorem normalizeListGo_idem :
    ∀ (l seen : List String), normalizeListGo seen (normalizeListGo seen l) = normalizeListGo seen l
  | [], _ => rfl
  | v :: vs, seen => by
    simp only [normalizeListGo]
    by_cases h1 : pyStrip v = ""
    · rw [if_pos h1]
      exact normalizeListGo_idem vs seen
    · rw [if_neg h1]
      by_cases h2 : casefold (pyStrip v) ∈ seen
      · rw [if_pos h2]
        exact normalizeListGo_idem vs seen
      · rw [if_neg h2]
        simp only [normalizeListGo, pyStrip_pyStrip]
        rw [if_neg h1, if_neg h2, normalizeListGo_idem vs (casefold (pyStrip v) :: seen)]

/-- C9: metadata normalization is idempotent — re-normalizing the output of
`_normalize_list` returns it unchanged, and re-validating an
already-validated version or id string returns it unchanged. -/
theorem normalization_idempotent :
    (∀ values, normalize_list (normalize_list values) = normalize_list values) ∧
    (∀ value normalized, validate_version value = .ok normalized →
      validate_version normalized = .ok normalized) ∧
    (∀ value normalized, validate_prompt_id value = .ok normalized →
      validate_prompt_id normalized = .ok normalized) := by
  refine ⟨fun values => normalizeListGo_idem values [], ?_, ?_⟩
  · intro value normalized h
    simp only [validate_version] at h ⊢
    split at h
    · exact Except.noConfusion h
    · split at h
      · exact Except.noConfusion h
      · rename_i h1 h2
        have hn : normalized = pyStrip value := by
          injection h with h
          exact h.symm
        subst hn
        rw [if_neg (by rw [pyStrip_pyStrip]; exact h1), if_neg (by rw [pyStrip_pyStrip]; exact h2),
          pyStrip_pyStrip]
  · intro value normalized h
    simp only [validate_prompt_id] at h ⊢
    split at h
    · exact Except.noConfusion h
    · split at h
      · exact Except.noConfusion h
      · rename_i h1 h2
        have hn : normalized = pyStrip value := by
          injection h with h
          exact h.symm
        subst hn
        rw [if_neg (by rw [pyStrip_pyStrip]; exact h1), if_neg (by rw [pyStrip_pyStrip]; exact h2),
          pyStrip_pyStrip]

/-- Witness for C9 at concrete inputs. -/
theorem normalization_idempotent_witness :
    normalize_list (normalize_list ["Review", " review ", "", "Python"]) =
        normalize_list ["Review", " review ", "", "Python"] ∧
    validate_version "1.20.3" = .ok "1.20.3" ∧
    validate_prompt_id "review-pr" = .ok "review-pr" :=
  ⟨normalization_idempotent.1 _,
    normalization_idempotent.2.1 " 1.20.3 " "1.20.3" (by rfl),
    normalization_idempotent.2.2 " review-pr " "review-pr" (by rfl)⟩

/-! ## Claim C10: exact-mode search neither validates nor trims the query -/

/-- C10: with `exact=true` and the empty query, `execute_search` returns
every document in original order and raises nothing (the empty string is a
substring of every haystack), while the ranked mode raises on the same
query; any query — whitespace-only included — is matched literally as a
substring in exact mode. -/
theorem execute_search_exact_spec (documents : List PromptDocument) :
    execute_search documents "" true = .ok documents ∧
    execute_search documents "" false = .error "Search query cannot be empty" ∧
    ∀ query, execute_search documents query true =
      .ok (documents.filter fun d => strContains (prompt_search_haystack d) (casefold query)) := by
  refine ⟨?_, rfl, fun query => rfl⟩
  show Except.ok (documents.filter fun d => strContains (prompt_search_haystack d) (casefold "")) =
    Except.ok documents
  congr 1
  calc documents.filter (fun d => strContains (prompt_search_haystack d) (casefold ""))
      = documents.filter (fun _ => true) := List.filter_congr (fun d _ => isInfixCh_nil _)
    _ = documents := List.filter_true documents

/-! ## Claim C3: tag filtering -/


/-- C3: `filter_by_tags` returns the input unchanged when the query tag set
is empty; otherwise it retains exactly the documents whose tag list is
non-empty and whose (case-folded) tag set intersects the query set
(`match_all = false`) or is a superset of it (`match_all = true`); in
particular a document with an empty tags list is never retained by a
non-empty query. -/
theorem filter_by_tags_spec (documents : List PromptDocument) (tags : Option (List String))
    (match_all : Bool) :
    (normalize_query_values tags = [] → filter_by_tags documents tags match_all = documents) ∧
    (normalize_query_values tags ≠ [] →
      filter_by_tags documents tags match_all = documents.filter fun d =>
        !d.metadata.tags.isEmpty &&
          (if match_all then
            (normalize_query_values tags).all fun t => t ∈ metadata_value_set d.metadata.tags
          else
            (metadata_value_set d.metadata.tags).any fun t =>
              t ∈ normalize_query_values tags)) ∧
    (normalize_query_values tags ≠ [] →
      ∀ d ∈ filter_by_tags documents tags match_all, d.metadata.tags ≠ []) := by
  have hmain : normalize_query_values tags ≠ [] →
      filter_by_tags documents tags match_all = documents.filter fun d =>
        !d.metadata.tags.isEmpty &&
          (if match_all then
            (normalize_query_values tags).all fun t => t ∈ metadata_value_set d.metadata.tags
          else
            (metadata_value_set d.metadata.tags).any fun t =>
              t ∈ normalize_query_values tags) := by
    intro h
    rcases List.exists_cons_of_ne_nil h with ⟨t, ts, hts⟩
    simp only [filter_by_tags]
    rw [if_neg (by simp [h])]
    refine List.filter_congr fun d _ => ?_
    by_cases hset : (metadata_value_set d.metadata.tags).isEmpty
    · rw [if_pos hset]
      have hnil : metadata_value_set d.metadata.tags = [] := List.isEmpty_iff.mp hset
      cases match_all <;> simp [hnil, hts]
    · rw [if_neg hset]
      have htags : ¬d.metadata.tags.isEmpty := by
        intro hx
        exact hset (by rw [List.isEmpty_iff.mp hx]; rfl)
      rw [Bool.not_eq_true] at htags
      simp [htags]
  refine ⟨?_, hmain, ?_⟩
  · intro h
    simp [filter_by_tags, h]
  · intro h d hd
    rw [hmain h] at hd
    have hp := List.of_mem_filter hd
    simp only [Bool.and_eq_true, Bool.not_eq_true'] at hp
    intro hx
    rw [hx] at hp
    simp at hp

/-- Witness for C3: the spec §8 example — tag query `[reviews]` retains
exactly `review-pr`. -/
theorem filter_by_tags_spec_witness :
    (filter_by_tags [docReviewPr, docIncident] (some ["reviews"]) false =
      [docReviewPr, docIncident].filter fun d =>
        !d.metadata.tags.isEmpty &&
          (if (false : Bool) then
            (normalize_query_values (some ["reviews"])).all fun t =>
              t ∈ metadata_value_set d.metadata.tags
          else
            (metadata_value_set d.metadata.tags).any fun t =>
              t ∈ normalize_query_values (some ["reviews"]))) ∧
    filter_by_tags [docReviewPr, docIncident] (some ["reviews"]) false = [docReviewPr] :=
  ⟨(filter_by_tags_spec [docReviewPr, docIncident] (some ["reviews"]) false).2.1 (by decide),
    by decide⟩

/-! ## Normalized-metadata lemmas

Metadata list fields only ever reach the filter engine after
`models._normalize_list` (the pydantic `field_validator` runs at
construction), so the documents in scope are exactly those whose lists are
fixed points of `normalize_list`. -/

theorem normalizeListGo_sound :
    ∀ (l seen : List String), ∀ x ∈ normalizeListGo seen l, pyStrip x = x ∧ x ≠ ""
  | [], _, x, hx => by simp [normalizeListGo] at hx
  | v :: vs, seen, x, hx => by
    simp only [normalizeListGo] at hx
    by_cases h1 : pyStrip v = ""
    · rw [if_pos h1] at hx
      exact normalizeListGo_sound vs seen x hx
    · rw [if_neg h1] at hx
      by_cases h2 : casefold (pyStrip v) ∈ seen
      · rw [if_pos h2] at hx
        exact normalizeListGo_sound vs seen x hx
      · rw [if_neg h2] at hx
        rcases List.mem_cons.mp hx with h3 | h3
        · subst h3
          exact ⟨pyStrip_pyStrip v, h1⟩
        · exact normalizeListGo_sound vs _ x h3

theorem normalizeListGo_fingerprints :
    ∀ (l seen : List String),
      (normalizeListGo seen l).Pairwise (fun a b => casefold a ≠ casefold b) ∧
        ∀ x ∈ normalizeListGo seen l, casefold x ∉ seen
  | [], _ => by simp [normalizeListGo]
  | v :: vs, seen => by
    simp only [normalizeListGo]
    by_cases h1 : pyStrip v = ""
    · rw [if_pos h1]
      exact normalizeListGo_fingerprints vs seen
    · rw [if_neg h1]
      by_cases h2 : casefold (pyStrip v) ∈ seen
      · rw [if_pos h2]
        exact normalizeListGo_fingerprints vs seen
      · rw [if_neg h2]
        have ih := normalizeListGo_fingerprints vs (casefold (pyStrip v) :: seen)
        constructor
        · refine List.pairwise_cons.mpr ⟨?_, ih.1⟩
          intro b hb
          have := ih.2 b hb
          simp only [List.mem_cons, not_or] at this
          exact fun hx => this.1 hx.symm
        · intro x hx
          rcases List.mem_cons.mp hx with h3 | h3
          · subst h3
            exact h2
          · intro hseen
            have := ih.2 x h3
            simp only [List.mem_cons, not_or] at this
            exact this.2 hseen

theorem metadata_value_set_of_normalized {l : List String} (h : normalize_list l = l) :
    metadata_value_set l = l.map casefold := by
  have hsound : ∀ x ∈ l, pyStrip x = x ∧ x ≠ "" := by
    intro x hx
    exact normalizeListGo_sound l [] x (by rw [show normalizeListGo [] l = l from h]; exact hx)
  have hpair : l.Pairwise fun a b => casefold a ≠ casefold b := by
    have := (normalizeListGo_fingerprints l []).1
    rwa [show normalizeListGo [] l = l from h] at this
  unfold metadata_value_set
  rw [List.map_congr_left (fun x hx => by rw [(hsound x hx).1])]
  rw [List.filter_eq_self.mpr ?_, List.dedup_eq_self.mpr ?_]
  · exact List.pairwise_map.mpr hpair
  · intro y hy
    rcases List.mem_map.mp hy with ⟨x, hx, rfl⟩
    simpa using (casefold_eq_empty_iff x).not.mpr (hsound x hx).2

/-! ## Claim C4: repo and agent filtering -/


/-- C4: `filter_by_repo` with a null or blank id is a no-op, and with a
non-blank id retains exactly the documents whose repos list is empty
(wildcard) or contains a case-insensitive match of the id; `filter_by_agent`
is symmetric for the agents facet (empty document list always passes, empty
query is a no-op, a non-empty list must intersect the query set).  The
hypotheses say the metadata lists went through `_normalize_list`, which the
pydantic validators guarantee for every constructible document. -/
theorem filter_facets_spec (documents : List PromptDocument)
    (hrepos : ∀ d ∈ documents, normalize_list d.metadata.repos = d.metadata.repos)
    (hagents : ∀ d ∈ documents, normalize_list d.metadata.agents = d.metadata.agents) :
    (filter_by_repo documents none = documents) ∧
    (∀ slug, pyStrip slug = "" → filter_by_repo documents (some slug) = documents) ∧
    (∀ slug, pyStrip slug ≠ "" →
      filter_by_repo documents (some slug) = documents.filter fun d =>
        d.metadata.repos.isEmpty ||
          d.metadata.repos.any fun r => casefold r = casefold (pyStrip slug)) ∧
    (filter_by_agent documents none = documents) ∧
    (∀ agents, normalize_query_values (some agents) = [] →
      filter_by_agent documents (some agents) = documents) ∧
    (∀ agents, normalize_query_values (some agents) ≠ [] →
      filter_by_agent documents (some agents) = documents.filter fun d =>
        d.metadata.agents.isEmpty ||
          d.metadata.agents.any fun a => casefold a ∈ normalize_query_values (some agents)) := by
  refine ⟨rfl, ?_, ?_, rfl, ?_, ?_⟩
  · intro slug h
    simp [filter_by_repo, h, casefold]
  · intro slug h
    simp only [filter_by_repo]
    rw [if_neg fun hc => h ((casefold_eq_empty_iff _).mp hc)]
    refine List.filter_congr fun d hd => ?_
    rw [metadata_value_set_of_normalized (hrepos d hd), Bool.eq_iff_iff]
    simp [List.isEmpty_iff, List.any_eq_true, List.map_eq_nil_iff, List.mem_map]
  · intro agents h
    simp [filter_by_agent, h]
  · intro agents h
    simp only [filter_by_agent]
    rw [if_neg (by simp [h])]
    refine List.filter_congr fun d hd => ?_
    rw [metadata_value_set_of_normalized (hagents d hd), Bool.eq_iff_iff]
    simp [List.isEmpty_iff, List.any_eq_true, List.map_eq_nil_iff, List.mem_map]

/-- Witness for C4: repo query `Acme` (case-folded match) keeps the
wildcard document and the matching document; agent query `cursor` likewise. -/
theorem filter_facets_spec_witness :
    (filter_by_repo [docAnyRepo, docAcmeOnly] (some "acme") =
      [docAnyRepo, docAcmeOnly].filter fun d =>
        d.metadata.repos.isEmpty ||
          d.metadata.repos.any fun r => casefold r = casefold (pyStrip "acme")) ∧
    filter_by_repo [docAnyRepo, docAcmeOnly] (some "acme") = [docAnyRepo, docAcmeOnly] ∧
    filter_by_agent [docAnyRepo, docAcmeOnly] (some ["CURSOR"]) = [docAnyRepo, docAcmeOnly] :=
  ⟨(filter_facets_spec [docAnyRepo, docAcmeOnly] (by decide) (by decide)).2.2.1 "acme"
      (by decide),
    by decide, by decide⟩

/-! ## Claim C2: sync fallback policy -/

/-- C2: for a remote reference, whenever cloning or updating fails, the
synchronizer returns the cache path exactly when the directory still holds
the `.git` marker and raises `StoreSyncError` otherwise; with no
pre-existing cache a failing clone always raises, and a valid pre-existing
cache with a failing update yields the pre-existing path (degraded
success). -/
theorem sync_fallback_spec (st : StoreState) (g : GitBehavior) :
    (syncAttemptFails st g = true →
      sync_central_repo_remote st g =
        if (syncStateAfter st g).gitMarker then .storePath (syncStateAfter st g)
        else .syncError) ∧
    (st.pathExists = false → g.cloneOk = false →
      sync_central_repo_remote st g = .syncError) ∧
    (st.pathExists = true → st.validRepo = true → st.gitMarker = true → g.updateOk = false →
      sync_central_repo_remote st g = .storePath st) := by
  rcases st with ⟨pe, vr, gm⟩
  rcases g with ⟨co, uo⟩
  revert pe vr gm co uo
  decide

/-- Witness for C2 at concrete states: a valid cache with a failing fetch
falls back to the cache path; a missing cache with a failing clone raises. -/
theorem sync_fallback_spec_witness :
    sync_central_repo_remote ⟨true, true, true⟩ ⟨true, false⟩ =
        .storePath ⟨true, true, true⟩ ∧
    sync_central_repo_remote ⟨false, false, false⟩ ⟨false, true⟩ = .syncError :=
  ⟨(sync_fallback_spec ⟨true, true, true⟩ ⟨true, false⟩).2.2 rfl rfl rfl rfl,
    (sync_fallback_spec ⟨false, false, false⟩ ⟨false, true⟩).2.1 rfl rfl⟩

/-! ## Claim C8: reference classification and cache naming -/


/-- Counterexample to C8 as stated: `.customref` — not absolute, not
existing, and not beginning with `./` or `../` — is nevertheless classified
local, because the code tests `startswith((".", ".."))`, i.e. any leading
dot. -/
theorem is_local_reference_counterexample :
    is_local_reference (fun _ => false) (fun s => s) ".customref" = true ∧
    claimIsLocalReference (fun _ => false) (fun s => s) ".customref" = false := by
  exact ⟨rfl, rfl⟩

theorem isPrefixCh_dot_or_dotdot (l : List Char) :
    (isPrefixCh ['.'] l || isPrefixCh ['.', '.'] l) = isPrefixCh ['.'] l := by
  cases l with
  | nil => rfl
  | cons c cs =>
    by_cases h : '.' = c
    · subst h
      simp [isPrefixCh]
    · simp [isPrefixCh, h]

/-- C8 (amended): a reference is treated as local exactly when its trimmed
form is non-empty, does not look like a remote URL (`://` inside, or a
`git@`/`ssh://` head), and is an absolute path, an existing filesystem
path, or begins with a dot — any leading `.`, not only `./` or `../`; every
other reference is remote and its cache directory name is the slugified
tail of the reference, a dash, and the first 12 hex characters of the
digest of the full reference. -/
theorem is_local_reference_spec (pathExists : String → Bool) (expanduser : String → String)
    (value : String) :
    (is_local_reference pathExists expanduser value = true ↔
      (pyStrip value ≠ "" ∧ looks_like_remote (pyStrip value) = false ∧
        (pathExists (expanduser (pyStrip value)) = true ∨
          isPrefixCh "/".data (expanduser (pyStrip value)).data = true ∨
          isPrefixCh ".".data (pyStrip value).data = true))) ∧
    (∀ hexDigest, slugify_repo hexDigest value =
      slugified_tail value ++ "-" ++ ⟨(hexDigest value).data.take 12⟩) := by
  refine ⟨?_, fun hexDigest => rfl⟩
  unfold is_local_reference
  by_cases h1 : pyStrip value = ""
  · simp [h1]
  · rw [if_neg h1]
    by_cases h2 : looks_like_remote (pyStrip value)
    · simp [h2, h1]
    · rw [if_neg h2]
      rw [Bool.not_eq_true] at h2
      by_cases h3 : pathExists (expanduser (pyStrip value)) ||
          isPrefixCh "/".data (expanduser (pyStrip value)).data
      · rw [if_pos h3]
        rw [Bool.or_eq_true] at h3
        refine iff_of_true rfl ⟨h1, h2, ?_⟩
        rcases h3 with h3 | h3
        · exact .inl h3
        · exact .inr (.inl h3)
      · rw [if_neg h3]
        rw [Bool.or_eq_true, not_or] at h3
        constructor
        · intro hdot
          rw [show ("." : String).data = ['.'] from rfl,
            show (".." : String).data = ['.', '.'] from rfl, isPrefixCh_dot_or_dotdot] at hdot
          exact ⟨h1, h2, .inr (.inr hdot)⟩
        · rintro ⟨-, -, h4 | h4 | h4⟩
          · exact absurd h4 h3.1
          · exact absurd h4 h3.2
          · rw [show ("." : String).data = ['.'] from rfl,
              show (".." : String).data = ['.', '.'] from rfl, isPrefixCh_dot_or_dotdot]
            exact h4

/-! ## Claim C5: directory scanning -/

theorem loadAll_ok_iff (loader : String → Except String PromptDocument) (files : List String)
    (docs : List PromptDocument) :
    loadAll loader files = .ok docs ↔
      List.Forall₂ (fun f d => loader f = .ok d) files docs := by
  induction files generalizing docs with
  | nil =>
    simp only [loadAll]
    constructor
    · intro h
      injection h with h
      subst h
      exact .nil
    · intro h
      cases h
      rfl
  | cons f fs ih =>
    simp only [loadAll]
    cases hf : loader f with
    | error e =>
      constructor
      · intro h
        exact Except.noConfusion h
      · intro h
        cases h with
        | cons hfd _ =>
          rw [hf] at hfd
          exact Except.noConfusion hfd
    | ok d =>
      cases hrest : loadAll loader fs with
      | error e =>
        constructor
        · intro h
          exact Except.noConfusion h
        · intro h
          cases h with
          | cons hfd htl =>
            have h2 := (ih _).mpr htl
            rw [hrest] at h2
            exact Except.noConfusion h2
      | ok ds =>
        constructor
        · intro h
          injection h with h
          subst h
          exact .cons (by rw [hf]) ((ih ds).mp hrest)
        · intro h
          cases h with
          | cons hfd htl =>
            rw [hf] at hfd
            injection hfd with hfd
            have h2 := (ih _).mpr htl
            rw [hrest] at h2
            injection h2 with h2
            rw [hfd, h2]

theorem loadAll_error (loader : String → Except String PromptDocument) (files : List String)
    (h : ∃ f ∈ files, ∃ e, loader f = .error e) :
    ∃ f e, f ∈ files ∧ loader f = .error e ∧ loadAll loader files = .error e := by
  induction files with
  | nil => simp at h
  | cons f fs ih =>
    cases hf : loader f with
    | error e => exact ⟨f, e, List.mem_cons_self f fs, hf, by simp [loadAll, hf]⟩
    | ok d =>
      have h' : ∃ f' ∈ fs, ∃ e, loader f' = .error e := by
        rcases h with ⟨f', hf', e, he⟩
        rcases List.mem_cons.mp hf' with rfl | hmem
        · rw [hf] at he
          exact Except.noConfusion he
        · exact ⟨f', hmem, e, he⟩
      rcases ih h' with ⟨f', e, hmem, he, hrun⟩
      exact ⟨f', e, List.mem_cons_of_mem _ hmem, he, by simp [loadAll, hf, hrun]⟩

/-- C5: scanning a missing or non-directory root raises; a directory scan
loads exactly the files whose (lowercased) extension is `.md` or
`.markdown`, one document per file, re-sorted by logical prompt id rather
than filesystem order; and any single file's load failure aborts the whole
scan with that file's specific error (no partial result). -/
theorem scan_prompts_dir_spec (loader : String → Except String PromptDocument) :
    (scan_prompts_dir .missing loader =
      .error "Missing prompts directory under store path") ∧
    (scan_prompts_dir .notDir loader = .error "prompts path must be a directory") ∧
    (∀ entries, list_files entries =
      ((entries.insertionSort pathLe).filter fun e =>
        e.isFile && (casefold (pathSuffix e.path) = ".md" ∨
          casefold (pathSuffix e.path) = ".markdown")).map FileEntry.path) ∧
    (∀ entries docs,
      List.Forall₂ (fun f d => loader f = .ok d) (list_files entries) docs →
        scan_prompts_dir (.dir entries) loader = .ok (docs.insertionSort idLe) ∧
        (docs.insertionSort idLe).Perm docs ∧ (docs.insertionSort idLe).Sorted idLe) ∧
    (∀ entries, (∃ f ∈ list_files entries, ∃ e, loader f = .error e) →
      ∃ f e, f ∈ list_files entries ∧ loader f = .error e ∧
        scan_prompts_dir (.dir entries) loader = .error e) := by
  refine ⟨rfl, rfl, ?_, ?_, ?_⟩
  · intro entries
    unfold list_files
    congr 1
    refine List.filter_congr fun e _ => ?_
    rw [Bool.eq_iff_iff]
    simp [allowedSuffixes]
  · intro entries docs h
    have hok := (loadAll_ok_iff loader (list_files entries) docs).mpr h
    refine ⟨?_, List.perm_insertionSort idLe docs, List.sorted_insertionSort idLe docs⟩
    simp only [scan_prompts_dir, scan_directory, hok, Except.map]
  · intro entries h
    rcases loadAll_error loader (list_files entries) h with ⟨f, e, hmem, he, hrun⟩
    refine ⟨f, e, hmem, he, ?_⟩
    simp only [scan_prompts_dir, scan_directory, hrun, Except.map]


/-- Witness for C5: the scan loads the two markdown files in path order and
returns them re-sorted by id (`alpha` before `zeta` although `a.md` comes
before `b.md`). -/
theorem scan_prompts_dir_spec_witness :
    (scan_prompts_dir (.dir scanEntries) scanLoader =
        .ok ([docZeta, docAlpha].insertionSort idLe) ∧
      ([docZeta, docAlpha].insertionSort idLe).Perm [docZeta, docAlpha] ∧
      ([docZeta, docAlpha].insertionSort idLe).Sorted idLe) ∧
    scan_prompts_dir (.dir scanEntries) scanLoader = .ok [docAlpha, docZeta] :=
  ⟨(scan_prompts_dir_spec scanLoader).2.2.2.1 scanEntries [docZeta, docAlpha] (by
      rw [show list_files scanEntries = ["prompts/a.md", "prompts/b.md"] from rfl]
      exact .cons rfl (.cons rfl .nil)),
    by rfl⟩

/-! ## Claims C6 and C7: frontmatter parser -/



theorem lastNlIdx_eq_none_iff : ∀ l : List Char, lastNlIdx l = none ↔ '\n' ∉ l
  | [] => by simp [lastNlIdx]
  | c :: cs => by
    simp only [lastNlIdx, List.mem_cons]
    cases h : lastNlIdx cs with
    | some i =>
      have hmem : '\n' ∈ cs := by
        by_contra hmem
        rw [(lastNlIdx_eq_none_iff cs).mpr hmem] at h
        exact Option.noConfusion h
      simp [hmem]
    | none =>
      have hmem : '\n' ∉ cs := (lastNlIdx_eq_none_iff cs).mp h
      by_cases hc : c = '\n'
      · subst hc
        simp
      · simp only [if_neg hc]
        simp only [hmem, or_false]
        exact iff_of_true trivial fun hx : '\n' = c => hc hx.symm

theorem lastNlIdx_lt_length : ∀ {l : List Char} {i : Nat}, lastNlIdx l = some i → i < l.length
  | [], i, h => by simp [lastNlIdx] at h
  | c :: cs, i, h => by
    simp only [lastNlIdx] at h
    cases h2 : lastNlIdx cs with
    | some j =>
      rw [h2] at h
      injection h with h
      subst h
      exact Nat.succ_lt_succ (lastNlIdx_lt_length h2)
    | none =>
      rw [h2] at h
      by_cases hc : c = '\n'
      · rw [if_pos hc] at h
        injection h with h
        subst h
        simp
      · rw [if_neg hc] at h
        exact Option.noConfusion h

theorem wsChar_nl : wsChar '\n' = true := by decide

theorem wsRun_iff_firstLine :
    ∀ rest : List Char,
      (((rest.takeWhile wsChar).length = rest.length ∨ '\n' ∈ rest.takeWhile wsChar) ↔
        (rest.takeWhile fun c => c ≠ '\n').all wsChar = true)
  | [] => by simp
  | c :: cs => by
    by_cases hc : wsChar c
    · by_cases hn : c = '\n'
      · subst hn
        simp [List.takeWhile_cons, hc]
      · have hne : ¬('\n' = c) := fun hx => hn hx.symm
        rw [List.takeWhile_cons, List.takeWhile_cons, if_pos hc, if_pos (by simpa using hn)]
        simp only [List.length_cons, List.mem_cons, List.all_cons, hc, Bool.true_and, hne,
          false_or, Nat.add_right_cancel_iff]
        exact wsRun_iff_firstLine cs
    · have hn : ¬(c = '\n') := fun h => by
        subst h
        rw [wsChar_nl] at hc
        exact hc rfl
      rw [List.takeWhile_cons, List.takeWhile_cons, if_neg hc, if_pos (by simpa using hn)]
      constructor
      · rintro (h | h)
        · rw [List.length_nil, List.length_cons] at h
          omega
        · simp at h
      · intro h
        simp only [List.all_cons, Bool.and_eq_true] at h
        exact absurd h.1 hc

theorem takeWhile_append_of_all {p : Char → Bool} :
    ∀ {x : List Char} (y : List Char), x.all p → (x ++ y).takeWhile p = x ++ y.takeWhile p
  | [], _, _ => rfl
  | c :: cs, y, h => by
    simp only [List.all_cons, Bool.and_eq_true] at h
    simp [List.takeWhile_cons, h.1, takeWhile_append_of_all y h.2]

theorem takeWhile_getElem? {p : Char → Bool} :
    ∀ (l : List Char) (q : Nat), q < (l.takeWhile p).length →
      ∃ c, l[q]? = some c ∧ p c = true
  | [], _, h => by simp at h
  | c :: cs, q, h => by
    by_cases hc : p c
    · rw [List.takeWhile_cons, if_pos hc] at h
      cases q with
      | zero => exact ⟨c, by simp, hc⟩
      | succ q' =>
        rw [List.length_cons, Nat.succ_lt_succ_iff] at h
        rcases takeWhile_getElem? cs q' h with ⟨c', hc', hp⟩
        exact ⟨c', by simpa using hc', hp⟩
    · rw [List.takeWhile_cons, if_neg hc] at h
      simp at h

theorem matchBoundaryAt_isSome_iff (l : List Char) :
    (matchBoundaryAt l).isSome = true ↔ dashLineAt l 0 := by
  unfold dashLineAt
  rw [List.drop_zero]
  by_cases ht : l.take 3 = ['-', '-', '-']
  case neg =>
    have hnone : matchBoundaryAt l = none := by
      unfold matchBoundaryAt
      rw [if_neg ht]
    rw [hnone]
    simp [ht]
  case pos =>
    have hlen3 : 3 ≤ l.length := by
      have h := congrArg List.length ht
      simp at h
      omega
    have hdecomp : ((l.takeWhile fun c => c ≠ '\n').drop 3) =
        (l.drop 3).takeWhile fun c => c ≠ '\n' := by
      conv_lhs => rw [show l = ['-', '-', '-'] ++ l.drop 3 by rw [← ht, List.take_append_drop]]
      rw [takeWhile_append_of_all _ (by decide)]
      exact List.drop_left ['-', '-', '-'] _
    have hsome : (matchBoundaryAt l).isSome = true ↔
        (3 + ((l.drop 3).takeWhile wsChar).length = l.length ∨
          '\n' ∈ (l.drop 3).takeWhile wsChar) := by
      simp only [matchBoundaryAt]
      rw [if_pos ht]
      by_cases h2 : 3 + ((l.drop 3).takeWhile wsChar).length = l.length
      · rw [if_pos h2]
        simp [h2]
      · rw [if_neg h2]
        cases h3 : lastNlIdx ((l.drop 3).takeWhile wsChar) with
        | some i =>
          simp only [Option.isSome_some, true_iff]
          right
          by_contra hmem
          rw [(lastNlIdx_eq_none_iff _).mpr hmem] at h3
          exact Option.noConfusion h3
        | none =>
          simp only [Option.isSome_none, Bool.false_eq_true, false_iff, not_or]
          exact ⟨h2, (lastNlIdx_eq_none_iff _).mp h3⟩
    rw [hsome]
    constructor
    · intro h
      refine ⟨ht, ?_⟩
      rw [hdecomp, ← wsRun_iff_firstLine (l.drop 3)]
      rcases h with h | h
      · left
        rw [List.length_drop]
        omega
      · right
        exact h
    · rintro ⟨-, h⟩
      rw [hdecomp, ← wsRun_iff_firstLine (l.drop 3)] at h
      rcases h with h | h
      · left
        rw [List.length_drop] at h
        omega
      · right
        exact h

theorem matchBoundaryAt_bounds {l : List Char} {oe : Nat} (h : matchBoundaryAt l = some oe) :
    l.take 3 = ['-', '-', '-'] ∧ 3 ≤ oe ∧
      oe ≤ 3 + ((l.drop 3).takeWhile wsChar).length := by
  simp only [matchBoundaryAt] at h
  by_cases ht : l.take 3 = ['-', '-', '-']
  · rw [if_pos ht] at h
    refine ⟨ht, ?_⟩
    have hlen3 : 3 ≤ l.length := by
      have h' := congrArg List.length ht
      simp at h'
      omega
    by_cases h2 : 3 + ((l.drop 3).takeWhile wsChar).length = l.length
    · rw [if_pos h2] at h
      injection h with h
      subst h
      omega
    · rw [if_neg h2] at h
      cases h3 : lastNlIdx ((l.drop 3).takeWhile wsChar) with
      | some i =>
        rw [h3] at h
        injection h with h
        subst h
        have := lastNlIdx_lt_length h3
        omega
      | none =>
        rw [h3] at h
        exact Option.noConfusion h
  · rw [if_neg ht] at h
    exact Option.noConfusion h

theorem matchBoundaryAt_pos_lt {l : List Char} {p : Nat}
    (h : (matchBoundaryAt (l.drop p)).isSome = true) : p < l.length := by
  by_contra hp
  rw [List.drop_eq_nil_of_le (le_of_not_lt hp)] at h
  simp [matchBoundaryAt] at h

theorem findBoundaryGo_isSome_iff (l : List Char) :
    ∀ (fuel start : Nat),
      (findBoundaryGo l start fuel).isSome = true ↔
        ∃ p, start ≤ p ∧ p < start + fuel ∧ lineStartAt l p = true ∧
          (matchBoundaryAt (l.drop p)).isSome = true
  | 0, start => by
    simp only [findBoundaryGo, Option.isSome_none, Bool.false_eq_true, false_iff, not_exists]
    intro p
    omega
  | fuel + 1, start => by
    simp only [findBoundaryGo]
    by_cases hls : lineStartAt l start
    · rw [if_pos hls]
      cases hm : matchBoundaryAt (l.drop start) with
      | some e =>
        simp only [Option.isSome_some, true_iff]
        exact ⟨start, le_refl start, by omega, hls, by rw [hm]; rfl⟩
      | none =>
        rw [findBoundaryGo_isSome_iff l fuel (start + 1)]
        constructor
        · rintro ⟨p, h1, h2, h3, h4⟩
          exact ⟨p, by omega, by omega, h3, h4⟩
        · rintro ⟨p, h1, h2, h3, h4⟩
          refine ⟨p, ?_, by omega, h3, h4⟩
          rcases Nat.eq_or_lt_of_le h1 with rfl | h5
          · rw [hm] at h4
            exact absurd h4 (by simp)
          · omega
    · rw [if_neg hls]
      rw [findBoundaryGo_isSome_iff l fuel (start + 1)]
      constructor
      · rintro ⟨p, h1, h2, h3, h4⟩
        exact ⟨p, by omega, by omega, h3, h4⟩
      · rintro ⟨p, h1, h2, h3, h4⟩
        refine ⟨p, ?_, by omega, h3, h4⟩
        rcases Nat.eq_or_lt_of_le h1 with rfl | h5
        · exact absurd h3 hls
        · omega

theorem findBoundaryFrom_isSome_iff (l : List Char) (start : Nat) :
    (findBoundaryFrom l start).isSome = true ↔
      ∃ p, start ≤ p ∧ lineStartAt l p = true ∧
        (matchBoundaryAt (l.drop p)).isSome = true := by
  unfold findBoundaryFrom
  rw [findBoundaryGo_isSome_iff]
  constructor
  · rintro ⟨p, h1, _, h3, h4⟩
    exact ⟨p, h1, h3, h4⟩
  · rintro ⟨p, h1, h3, h4⟩
    have hp := matchBoundaryAt_pos_lt h4
    exact ⟨p, h1, by omega, h3, h4⟩

theorem dashLineAt_zero_drop (l : List Char) (p : Nat) :
    dashLineAt (l.drop p) 0 ↔ dashLineAt l p := by
  unfold dashLineAt
  rw [List.drop_zero]

/-- Any standalone `---` line after position 0 lies at or after the opening
match's end: the characters between the opening `---` and its end are
whitespace, so no such line can start there. -/
theorem closing_exists_iff {l : List Char} {oe : Nat} (hoe : matchBoundaryAt l = some oe) :
    (∃ p, oe ≤ p ∧ lineStartAt l p = true ∧ (matchBoundaryAt (l.drop p)).isSome = true) ↔
      (∃ p, 0 < p ∧ lineStartAt l p = true ∧ (matchBoundaryAt (l.drop p)).isSome = true) := by
  obtain ⟨ht, h3oe, hoele⟩ := matchBoundaryAt_bounds hoe
  constructor
  · rintro ⟨p, h1, h2, h3⟩
    exact ⟨p, by omega, h2, h3⟩
  · rintro ⟨p, h1, h2, h3⟩
    refine ⟨p, ?_, h2, h3⟩
    by_contra hlt
    push_neg at hlt
    have hls : l[p - 1]? = some '\n' := by
      simp only [lineStartAt, Bool.or_eq_true, decide_eq_true_eq] at h2
      rcases h2 with h2 | h2
      · omega
      · exact h2
    have hdash : ∀ j, j < 3 → l[j]? = some '-' := by
      intro j hj
      have h0 := congrArg (fun t => t[j]?) ht
      simp only [List.getElem?_take] at h0
      rw [if_pos hj] at h0
      rw [h0]
      interval_cases j <;> rfl
    have hp4 : 4 ≤ p := by
      by_contra hp4
      push_neg at hp4
      have hj := hdash (p - 1) (by omega)
      rw [hls] at hj
      injection hj with hj
      exact absurd hj (by decide)
    have hq : p - 3 < ((l.drop 3).takeWhile wsChar).length := by omega
    rcases takeWhile_getElem? (l.drop 3) (p - 3) hq with ⟨c, hc, hw⟩
    rw [List.getElem?_drop] at hc
    rw [show 3 + (p - 3) = p by omega] at hc
    have hdp : l[p]? = some '-' := by
      have hb := (matchBoundaryAt_isSome_iff (l.drop p)).mp h3
      unfold dashLineAt at hb
      rw [List.drop_zero] at hb
      obtain ⟨htake, -⟩ := hb
      have h0 := congrArg (fun t => t[0]?) htake
      simp only [List.getElem?_take] at h0
      rw [if_pos (by omega)] at h0
      rw [List.getElem?_drop] at h0
      simpa using h0
    rw [hdp] at hc
    injection hc with hc
    subst hc
    exact absurd hw (by decide)

/-- Stepwise unfolding of `parse_frontmatter`: no opening boundary. -/
theorem parse_frontmatter_eq_of_noOpen {safeLoad : String → Except Unit Yaml}
    {raw_text : String} (h : matchBoundaryAt (bomStripped raw_text) = none) :
    parse_frontmatter safeLoad raw_text =
      .error "Document must begin with YAML frontmatter delimited by ---" := by
  simp only [parse_frontmatter]
  rw [h]

/-- Stepwise unfolding of `parse_frontmatter`: opening boundary found. -/
theorem parse_frontmatter_eq_of_open {safeLoad : String → Except Unit Yaml}
    {raw_text : String} {oe : Nat} (h1 : matchBoundaryAt (bomStripped raw_text) = some oe) :
    parse_frontmatter safeLoad raw_text =
      match findBoundaryFrom (bomStripped raw_text) oe with
      | none => .error "Frontmatter block is not properly terminated"
      | some (closeStart, closeEnd) =>
        match safeLoad ⟨((bomStripped raw_text).drop oe).take (closeStart - oe)⟩ with
        | .error _ => .error "Unable to parse YAML frontmatter"
        | .ok loaded =>
          match (if isFalsy loaded then Yaml.mapV [] else loaded) with
          | .mapV entries =>
            .ok (entries,
              ⟨((((bomStripped raw_text).drop closeEnd).dropWhile
                  isNlChar).reverse.dropWhile isNlChar).reverse⟩)
          | _ => .error "YAML frontmatter must deserialize to a mapping" := by
  simp only [parse_frontmatter]
  rw [h1]

/-- Stepwise unfolding of `parse_frontmatter`: both boundaries found. -/
theorem parse_frontmatter_eq_of_close {safeLoad : String → Except Unit Yaml}
    {raw_text : String} {oe closeStart closeEnd : Nat}
    (h1 : matchBoundaryAt (bomStripped raw_text) = some oe)
    (h2 : findBoundaryFrom (bomStripped raw_text) oe = some (closeStart, closeEnd)) :
    parse_frontmatter safeLoad raw_text =
      match safeLoad ⟨((bomStripped raw_text).drop oe).take (closeStart - oe)⟩ with
      | .error _ => .error "Unable to parse YAML frontmatter"
      | .ok loaded =>
        match (if isFalsy loaded then Yaml.mapV [] else loaded) with
        | .mapV entries =>
          .ok (entries,
            ⟨((((bomStripped raw_text).drop closeEnd).dropWhile
                isNlChar).reverse.dropWhile isNlChar).reverse⟩)
        | _ => .error "YAML frontmatter must deserialize to a mapping" := by
  rw [parse_frontmatter_eq_of_open h1, h2]

/-- Stepwise unfolding of `parse_frontmatter`: deserialization succeeded. -/
theorem parse_frontmatter_eq_of_load {safeLoad : String → Except Unit Yaml}
    {raw_text : String} {oe closeStart closeEnd : Nat} {v : Yaml}
    (h1 : matchBoundaryAt (bomStripped raw_text) = some oe)
    (h2 : findBoundaryFrom (bomStripped raw_text) oe = some (closeStart, closeEnd))
    (h3 : safeLoad ⟨((bomStripped raw_text).drop oe).take (closeStart - oe)⟩ = .ok v) :
    parse_frontmatter safeLoad raw_text =
      match (if isFalsy v then Yaml.mapV [] else v) with
      | .mapV entries =>
        .ok (entries,
          ⟨((((bomStripped raw_text).drop closeEnd).dropWhile
              isNlChar).reverse.dropWhile isNlChar).reverse⟩)
      | _ => .error "YAML frontmatter must deserialize to a mapping" := by
  rw [parse_frontmatter_eq_of_close h1 h2, h3]

/-- Stepwise unfolding of `parse_frontmatter`: deserialization failed. -/
theorem parse_frontmatter_eq_of_loadErr {safeLoad : String → Except Unit Yaml}
    {raw_text : String} {oe closeStart closeEnd : Nat} {e : Unit}
    (h1 : matchBoundaryAt (bomStripped raw_text) = some oe)
    (h2 : findBoundaryFrom (bomStripped raw_text) oe = some (closeStart, closeEnd))
    (h3 : safeLoad ⟨((bomStripped raw_text).drop oe).take (closeStart - oe)⟩ = .error e) :
    parse_frontmatter safeLoad raw_text = .error "Unable to parse YAML frontmatter" := by
  rw [parse_frontmatter_eq_of_close h1 h2, h3]

/-- Stepwise unfolding of `frontmatter_block`: opening boundary found. -/
theorem frontmatter_block_eq_of_open {l : List Char} {oe : Nat}
    (h1 : matchBoundaryAt l = some oe) :
    frontmatter_block l =
      match findBoundaryFrom l oe with
      | none => none
      | some (closeStart, _) => some ((l.drop oe).take (closeStart - oe)) := by
  unfold frontmatter_block
  rw [h1]

/-- The block handed to the deserializer, when both boundaries are found. -/
theorem frontmatter_block_eq {l : List Char} {oe closeStart closeEnd : Nat}
    (h1 : matchBoundaryAt l = some oe)
    (h2 : findBoundaryFrom l oe = some (closeStart, closeEnd)) :
    frontmatter_block l = some ((l.drop oe).take (closeStart - oe)) := by
  rw [frontmatter_block_eq_of_open h1, h2]

/-- C6 (amended): `parse_frontmatter` succeeds exactly when the text after
BOM-stripping opens with a `---` line at its very start (the first line,
trailing whitespace allowed — not merely the first non-blank line), a later
line is a standalone `---` line, and the text between the delimiters
deserializes without YAML error either to a mapping or to a Python-falsy
value (null / empty), which `or {}` coerces to the empty mapping; an input
whose first line does not open frontmatter raises the "must begin" error,
and an opening without a closing line raises "not properly terminated". -/
theorem parse_frontmatter_structure (safeLoad : String → Except Unit Yaml) (raw_text : String) :
    (¬ dashLineAt (bomStripped raw_text) 0 →
      parse_frontmatter safeLoad raw_text =
        .error "Document must begin with YAML frontmatter delimited by ---") ∧
    (dashLineAt (bomStripped raw_text) 0 →
      ¬ (∃ p, 0 < p ∧ lineStartAt (bomStripped raw_text) p = true ∧
          dashLineAt (bomStripped raw_text) p) →
      parse_frontmatter safeLoad raw_text =
        .error "Frontmatter block is not properly terminated") ∧
    ((∃ result, parse_frontmatter safeLoad raw_text = .ok result) ↔
      (dashLineAt (bomStripped raw_text) 0 ∧
        (∃ p, 0 < p ∧ lineStartAt (bomStripped raw_text) p = true ∧
          dashLineAt (bomStripped raw_text) p) ∧
        ∃ blk v, frontmatter_block (bomStripped raw_text) = some blk ∧
          safeLoad ⟨blk⟩ = .ok v ∧
          (isFalsy v = true ∨ ∃ entries, v = .mapV entries))) := by
  refine ⟨?_, ?_, ?_⟩
  · intro h
    have hnone : matchBoundaryAt (bomStripped raw_text) = none := by
      rw [← Option.not_isSome_iff_eq_none]
      intro hs
      exact h ((matchBoundaryAt_isSome_iff _).mp hs)
    exact parse_frontmatter_eq_of_noOpen hnone
  · intro hd hnc
    have hsome : (matchBoundaryAt (bomStripped raw_text)).isSome = true :=
      (matchBoundaryAt_isSome_iff _).mpr hd
    rcases Option.isSome_iff_exists.mp hsome with ⟨oe, hoe⟩
    have hclose : findBoundaryFrom (bomStripped raw_text) oe = none := by
      rw [← Option.not_isSome_iff_eq_none]
      intro hs
      apply hnc
      have h1 := (findBoundaryFrom_isSome_iff _ _).mp hs
      have h2 := (closing_exists_iff hoe).mp h1
      rcases h2 with ⟨p, hp1, hp2, hp3⟩
      exact ⟨p, hp1, hp2, (dashLineAt_zero_drop _ _).mp ((matchBoundaryAt_isSome_iff _).mp hp3)⟩
    rw [parse_frontmatter_eq_of_open hoe, hclose]
  · constructor
    · rintro ⟨result, hok⟩
      cases hoe : matchBoundaryAt (bomStripped raw_text) with
      | none =>
        rw [parse_frontmatter_eq_of_noOpen hoe] at hok
        exact Except.noConfusion hok
      | some oe =>
        cases hcl : findBoundaryFrom (bomStripped raw_text) oe with
        | none =>
          rw [parse_frontmatter_eq_of_open hoe, hcl] at hok
          exact Except.noConfusion hok
        | some pq =>
          rcases pq with ⟨closeStart, closeEnd⟩
          cases hld : safeLoad ⟨((bomStripped raw_text).drop oe).take (closeStart - oe)⟩ with
          | error e =>
            rw [parse_frontmatter_eq_of_loadErr hoe hcl hld] at hok
            exact Except.noConfusion hok
          | ok v =>
            rw [parse_frontmatter_eq_of_load hoe hcl hld] at hok
            refine ⟨(matchBoundaryAt_isSome_iff _).mp (by rw [hoe]; rfl), ?_, ?_⟩
            · have h1 := (findBoundaryFrom_isSome_iff (bomStripped raw_text) oe).mp
                (by rw [hcl]; rfl)
              rcases (closing_exists_iff hoe).mp h1 with ⟨p, hp1, hp2, hp3⟩
              exact ⟨p, hp1, hp2,
                (dashLineAt_zero_drop _ _).mp ((matchBoundaryAt_isSome_iff _).mp hp3)⟩
            · refine ⟨((bomStripped raw_text).drop oe).take (closeStart - oe), v, ?_, hld, ?_⟩
              · exact frontmatter_block_eq hoe hcl
              · by_cases hf : isFalsy v
                · exact .inl hf
                · rw [if_neg hf] at hok
                  cases v with
                  | mapV entries => exact .inr ⟨entries, rfl⟩
                  | nullV => exact Except.noConfusion hok
                  | boolV b => exact Except.noConfusion hok
                  | intV n => exact Except.noConfusion hok
                  | strV s => exact Except.noConfusion hok
                  | listV items => exact Except.noConfusion hok
    · rintro ⟨hd, hc, blk, v, hblk, hld, hv⟩
      have hsome : (matchBoundaryAt (bomStripped raw_text)).isSome = true :=
        (matchBoundaryAt_isSome_iff _).mpr hd
      rcases Option.isSome_iff_exists.mp hsome with ⟨oe, hoe⟩
      have hclsome : (findBoundaryFrom (bomStripped raw_text) oe).isSome = true := by
        rw [findBoundaryFrom_isSome_iff]
        apply (closing_exists_iff hoe).mpr
        rcases hc with ⟨p, hp1, hp2, hp3⟩
        exact ⟨p, hp1, hp2,
          (matchBoundaryAt_isSome_iff _).mpr ((dashLineAt_zero_drop _ _).mpr hp3)⟩
      rcases Option.isSome_iff_exists.mp hclsome with ⟨pq, hcl⟩
      rcases pq with ⟨closeStart, closeEnd⟩
      have hblk' : blk = ((bomStripped raw_text).drop oe).take (closeStart - oe) := by
        rw [frontmatter_block_eq hoe hcl] at hblk
        injection hblk with hblk
        exact hblk.symm
      subst hblk'
      rcases hv with hf | ⟨entries, rfl⟩
      · exact ⟨_, by rw [parse_frontmatter_eq_of_load hoe hcl hld, if_pos hf]⟩
      · by_cases hf : isFalsy (Yaml.mapV entries)
        · exact ⟨_, by rw [parse_frontmatter_eq_of_load hoe hcl hld, if_pos hf]⟩
        · exact ⟨_, by rw [parse_frontmatter_eq_of_load hoe hcl hld, if_neg hf]⟩

/-- Counterexample to C6 as stated: with a leading blank line the first
non-blank line is `---`, a later standalone `---` exists and the content
deserializes to a mapping, yet the parser raises — the anchored
`re.match` requires the very first line to open the frontmatter. -/
theorem parse_frontmatter_counterexample :
    parse_frontmatter miniYamlLoad "\n---\na: b\n---\nbody" =
      .error "Document must begin with YAML frontmatter delimited by ---" ∧
    parse_frontmatter miniYamlLoad "---\na: b\n---\nbody" =
      .ok ([("a", Yaml.strV "b")], "body") :=
  ⟨rfl, rfl⟩

/-- Witness for C6 at concrete inputs: a document with no frontmatter at
all raises the "must begin" error, and a well-formed document parses. -/
theorem parse_frontmatter_structure_witness :
    parse_frontmatter miniYamlLoad "hello world" =
      .error "Document must begin with YAML frontmatter delimited by ---" ∧
    (∃ result, parse_frontmatter miniYamlLoad "---\nid: demo\n---\nBody" = .ok result) :=
  ⟨(parse_frontmatter_structure miniYamlLoad "hello world").1 (by decide),
    (parse_frontmatter_structure miniYamlLoad "---\nid: demo\n---\nBody").2.2.mpr
      ⟨by decide, ⟨13, by decide, by decide, by decide⟩,
        "\nid: demo\n".data, Yaml.mapV [("id", Yaml.strV "demo")], rfl, rfl,
        .inr ⟨[("id", Yaml.strV "demo")], rfl⟩⟩⟩

/-- C7 (amended): once both delimiters are found, the parser raises
"Unable to parse" when the deserializer itself errors, raises the mapping
error exactly for truthy non-mapping values, coerces falsy values (null,
empty list/string, `0`, `false`) to the empty mapping, and otherwise
returns the mapping entries together with the body stripped of leading and
trailing newline and carriage-return characters only. -/
theorem parse_frontmatter_yaml_spec (safeLoad : String → Except Unit Yaml) (raw_text : String)
    (oe closeStart closeEnd : Nat)
    (h1 : matchBoundaryAt (bomStripped raw_text) = some oe)
    (h2 : findBoundaryFrom (bomStripped raw_text) oe = some (closeStart, closeEnd)) :
    (∀ e, safeLoad ⟨((bomStripped raw_text).drop oe).take (closeStart - oe)⟩ = .error e →
      parse_frontmatter safeLoad raw_text = .error "Unable to parse YAML frontmatter") ∧
    (∀ v, safeLoad ⟨((bomStripped raw_text).drop oe).take (closeStart - oe)⟩ = .ok v →
      isFalsy v = false → (∀ entries, v ≠ Yaml.mapV entries) →
      parse_frontmatter safeLoad raw_text =
        .error "YAML frontmatter must deserialize to a mapping") ∧
    (∀ v, safeLoad ⟨((bomStripped raw_text).drop oe).take (closeStart - oe)⟩ = .ok v →
      isFalsy v = true →
      parse_frontmatter safeLoad raw_text = .ok ([],
        ⟨((((bomStripped raw_text).drop closeEnd).dropWhile
            isNlChar).reverse.dropWhile isNlChar).reverse⟩)) ∧
    (∀ entries,
      safeLoad ⟨((bomStripped raw_text).drop oe).take (closeStart - oe)⟩ =
        .ok (Yaml.mapV entries) →
      isFalsy (Yaml.mapV entries) = false →
      parse_frontmatter safeLoad raw_text = .ok (entries,
        ⟨((((bomStripped raw_text).drop closeEnd).dropWhile
            isNlChar).reverse.dropWhile isNlChar).reverse⟩)) := by
  refine ⟨?_, ?_, ?_, ?_⟩
  · intro e he
    exact parse_frontmatter_eq_of_loadErr h1 h2 he
  · intro v hv hf hnm
    rw [parse_frontmatter_eq_of_load h1 h2 hv,
      if_neg (by rw [hf]; exact Bool.false_ne_true)]
    cases v with
    | mapV entries => exact absurd rfl (hnm entries)
    | nullV => rfl
    | boolV b => rfl
    | intV n => rfl
    | strV s => rfl
    | listV items => rfl
  · intro v hv hf
    rw [parse_frontmatter_eq_of_load h1 h2 hv, if_pos hf]
  · intro entries hv hf
    rw [parse_frontmatter_eq_of_load h1 h2 hv,
      if_neg (by rw [hf]; exact Bool.false_ne_true)]

/-- Witness for C7 at a concrete document: `---\nk: v\n---\nline1\n` has its
boundaries at `(3, (9, 12))`, the block `"\nk: v\n"` deserializes to a
one-entry mapping, and the body keeps only `line1`. -/
theorem parse_frontmatter_yaml_spec_witness :
    parse_frontmatter miniYamlLoad "---\nk: v\n---\nline1\n" =
      .ok ([("k", Yaml.strV "v")],
        ⟨((((bomStripped "---\nk: v\n---\nline1\n").drop 12).dropWhile
            isNlChar).reverse.dropWhile isNlChar).reverse⟩) :=
  (parse_frontmatter_yaml_spec miniYamlLoad "---\nk: v\n---\nline1\n" 3 9 12 rfl rfl).2.2.2
    [("k", Yaml.strV "v")] rfl rfl

/-- Counterexample to C7 as stated: the delimited content of
`---\n---\nbody` is `"\n"`, which deserializes to `None` — a non-mapping —
yet the parser succeeds with the empty mapping (the `or {}` coercion)
instead of raising. -/
theorem parse_frontmatter_null_counterexample :
    frontmatter_block (bomStripped "---\n---\nbody") = some "\n".data ∧
    miniYamlLoad "\n" = .ok Yaml.nullV ∧
    parse_frontmatter miniYamlLoad "---\n---\nbody" = .ok ([], "body") :=
  ⟨rfl, rfl, rfl⟩

/-! ## Claim C1: the search ranker -/

theorem matchingTotalFuel_congr :
    ∀ (n : Nat) (a b : List Char) (f g : Nat),
      a.length + b.length ≤ n → a.length + b.length ≤ f → a.length + b.length ≤ g →
      matchingTotalFuel f a b = matchingTotalFuel g a b := by
  intro n
  induction n with
  | zero =>
    intro a b f g hn _ _
    have ha : a = [] := List.length_eq_zero.mp (by omega)
    have hb : b = [] := List.length_eq_zero.mp (by omega)
    subst ha
    subst hb
    cases f <;> cases g <;> rfl
  | succ n ih =>
    intro a b f g hn hf hg
    by_cases hm : a.length + b.length = 0
    · have ha : a = [] := List.length_eq_zero.mp (by omega)
      have hb : b = [] := List.length_eq_zero.mp (by omega)
      subst ha
      subst hb
      cases f <;> cases g <;> rfl
    · obtain ⟨f', rfl⟩ : ∃ f', f = f' + 1 := ⟨f - 1, by omega⟩
      obtain ⟨g', rfl⟩ : ∃ g', g = g' + 1 := ⟨g - 1, by omega⟩
      simp only [matchingTotalFuel]
      by_cases hk : (findLongestMatch a b).2.2 = 0
      · rw [if_pos hk, if_pos hk]
      · rw [if_neg hk, if_neg hk]
        obtain ⟨hba, hbb⟩ := findLongestMatch_bounds a b
        rw [ih _ _ f' g' (by simp only [List.length_take]; omega)
            (by simp only [List.length_take]; omega)
            (by simp only [List.length_take]; omega),
          ih _ _ f' g' (by simp only [List.length_drop]; omega)
            (by simp only [List.length_drop]; omega)
            (by simp only [List.length_drop]; omega)]

theorem matchingTotalFuel_eq_matchingTotal {f : Nat} {a b : List Char}
    (h : a.length + b.length ≤ f) : matchingTotalFuel f a b = matchingTotal a b :=
  matchingTotalFuel_congr (a.length + b.length) a b f (a.length + b.length)
    (le_refl _) h (le_refl _)

/-- The fuel in `matchingTotal` is exact: the fuel-free difflib recurrence
holds of it. -/
theorem matchingTotal_recurrence (a b : List Char) :
    matchingTotal a b =
      if (findLongestMatch a b).2.2 = 0 then 0
      else
        (findLongestMatch a b).2.2 +
          matchingTotal (a.take (findLongestMatch a b).1)
            (b.take (findLongestMatch a b).2.1) +
          matchingTotal (a.drop ((findLongestMatch a b).1 + (findLongestMatch a b).2.2))
            (b.drop ((findLongestMatch a b).2.1 + (findLongestMatch a b).2.2)) := by
  by_cases hm : a.length + b.length = 0
  · have ha : a = [] := List.length_eq_zero.mp (by omega)
    have hb : b = [] := List.length_eq_zero.mp (by omega)
    subst ha
    subst hb
    rfl
  · obtain ⟨s, hs⟩ : ∃ s, a.length + b.length = s + 1 :=
      ⟨a.length + b.length - 1, by omega⟩
    unfold matchingTotal
    rw [hs]
    simp only [matchingTotalFuel]
    by_cases hk : (findLongestMatch a b).2.2 = 0
    · rw [if_pos hk, if_pos hk]
    · rw [if_neg hk, if_neg hk]
      obtain ⟨hba, hbb⟩ := findLongestMatch_bounds a b
      have h1 : (a.take (findLongestMatch a b).1).length +
          (b.take (findLongestMatch a b).2.1).length ≤ s := by
        simp only [List.length_take]
        omega
      have h2 : (a.drop ((findLongestMatch a b).1 + (findLongestMatch a b).2.2)).length +
          (b.drop ((findLongestMatch a b).2.1 + (findLongestMatch a b).2.2)).length ≤ s := by
        simp only [List.length_drop]
        omega
      rw [matchingTotalFuel_eq_matchingTotal h1, matchingTotalFuel_eq_matchingTotal h2]
      rfl

theorem token_match_score_nonneg (tokens : List String) (haystack : String) :
    0 ≤ token_match_score tokens haystack := by
  unfold token_match_score
  split_ifs
  · exact le_refl 0
  · positivity
  · exact zero_le_one
  · exact le_refl 0

theorem filterMap_ite_none {α β : Type} (c : α → Prop) [DecidablePred c] (g : α → β) :
    ∀ l : List α,
      (l.filterMap fun a => if c a then none else some (g a)) =
        (l.filter fun a => decide ¬c a).map g
  | [] => rfl
  | a :: l => by
    by_cases h : c a
    · simp [List.filterMap_cons, List.filter_cons, h, filterMap_ite_none c g l]
    · simp [List.filterMap_cons, List.filter_cons, h, filterMap_ite_none c g l]

/-- C1: for a query whose trimmed form is empty, `search_prompts` raises
the empty-query error; otherwise it returns exactly the documents
with `tokenScore > 0` or `fuzzyScore ≥ 0.72`, sorted descending by the
combined score `max(tokenScore, fuzzyScore)` with ties broken by ascending
prompt id. -/
theorem search_prompts_spec (documents : List PromptDocument) (query : String) :
    (pyStrip query = "" →
      search_prompts documents query = .error "Search query cannot be empty") ∧
    (pyStrip query ≠ "" →
      ∃ results, search_prompts documents query = .ok results ∧
        results.Perm (documents.filter fun d =>
          0 < tokenScoreOf query d ∨ (72 : ℚ) / 100 ≤ fuzzyScoreOf query d) ∧
        results.Pairwise fun a b =>
          scoreOf query b < scoreOf query a ∨
            (scoreOf query a = scoreOf query b ∧
              pyStrLe a.metadata.prompt_id b.metadata.prompt_id)) := by
  constructor
  · intro h
    simp [search_prompts, (tokenize_query_eq_nil_iff query).mpr h]
  · intro h
    have hne : tokenize_query query ≠ [] := fun hx =>
      h ((tokenize_query_eq_nil_iff query).mp hx)
    have hform : search_prompts documents query =
        .ok ((((documents.filter fun d =>
            decide ¬(tokenScoreOf query d = 0 ∧ fuzzyScoreOf query d < 72 / 100)).map
              fun d => (scoreOf query d, d)).insertionSort scoreKeyLe).map Prod.snd) := by
      have hfm : (documents.filterMap fun d =>
          if tokenScoreOf query d = 0 ∧ fuzzyScoreOf query d < 72 / 100 then none
          else some (scoreOf query d, d)) =
            (documents.filter fun d =>
              decide ¬(tokenScoreOf query d = 0 ∧ fuzzyScoreOf query d < 72 / 100)).map
              fun d => (scoreOf query d, d) :=
        filterMap_ite_none _ _ documents
      simp only [search_prompts]
      rw [if_neg (by simpa [List.isEmpty_iff] using hne)]
      exact congrArg (fun t : List (ℚ × PromptDocument) =>
        Except.ok ((t.insertionSort scoreKeyLe).map Prod.snd)) hfm
    have hpred : (documents.filter fun d =>
        decide ¬(tokenScoreOf query d = 0 ∧ fuzzyScoreOf query d < 72 / 100)) =
          documents.filter fun d =>
            0 < tokenScoreOf query d ∨ (72 : ℚ) / 100 ≤ fuzzyScoreOf query d := by
      refine List.filter_congr fun d _ => ?_
      rw [decide_eq_decide]
      have h0 := token_match_score_nonneg (tokenize_query query) (build_prompt_haystack d)
      constructor
      · intro hx
        rcases not_and_or.mp hx with hx | hx
        · exact .inl (lt_of_le_of_ne h0 (Ne.symm hx))
        · exact .inr (le_of_not_lt hx)
      · rintro (hx | hx) ⟨h1, h2⟩
        · rw [h1] at hx
          exact lt_irrefl 0 hx
        · exact absurd h2 (not_lt_of_le hx)
    rw [hpred] at hform
    refine ⟨_, hform, ?_, ?_⟩
    · have h1 := List.perm_insertionSort scoreKeyLe
        ((documents.filter fun d =>
          0 < tokenScoreOf query d ∨ (72 : ℚ) / 100 ≤ fuzzyScoreOf query d).map
            fun d => (scoreOf query d, d))
      have h2 := h1.map Prod.snd
      rw [List.map_map] at h2
      rw [show (Prod.snd ∘ fun d : PromptDocument => (scoreOf query d, d)) = id from rfl,
        List.map_id] at h2
      exact h2
    · have hsorted := List.sorted_insertionSort scoreKeyLe
        ((documents.filter fun d =>
          0 < tokenScoreOf query d ∨ (72 : ℚ) / 100 ≤ fuzzyScoreOf query d).map
            fun d => (scoreOf query d, d))
      rw [List.pairwise_map]
      refine hsorted.imp_of_mem ?_
      intro x y hx hy hxy
      have hx' : x.1 = scoreOf query x.2 := by
        rcases List.mem_map.mp ((List.mem_insertionSort scoreKeyLe).mp hx) with ⟨d, -, rfl⟩
        rfl
      have hy' : y.1 = scoreOf query y.2 := by
        rcases List.mem_map.mp ((List.mem_insertionSort scoreKeyLe).mp hy) with ⟨d, -, rfl⟩
        rfl
      rcases hxy with hlt | ⟨heq, hle⟩
      · rw [hx', hy'] at hlt
        exact .inl hlt
      · rw [hx', hy'] at heq
        exact .inr ⟨heq, hle⟩

/-- Witness for C1: a non-blank query on a concrete document list yields a
ranked result with the stated membership and ordering. -/
theorem search_prompts_spec_witness :
    ∃ results, search_prompts [docReviewPr] "reviewpr" = .ok results ∧
      results.Perm ([docReviewPr].filter fun d =>
        0 < tokenScoreOf "reviewpr" d ∨ (72 : ℚ) / 100 ≤ fuzzyScoreOf "reviewpr" d) ∧
      results.Pairwise fun a b =>
        scoreOf "reviewpr" b < scoreOf "reviewpr" a ∨
          (scoreOf "reviewpr" a = scoreOf "reviewpr" b ∧
            pyStrLe a.metadata.prompt_id b.metadata.prompt_id) :=
  (search_prompts_spec [docReviewPr] "reviewpr").2 (by decide)

end Contextctl
